import Mathlib

/-!
# AVL tree (`avl_tree.c`): embedding and verified properties

The C nodes (`struct node`: cached `height`, `children[2]`, `data`) are embedded
as an inductive type whose `NULL` constructor stands for the null pointer; the
in-place updates of the C code become functions returning the updated subtree.
`size_t` values are natural numbers reduced modulo `2 ^ 64` wherever the C code
performs arithmetic on them; `ssize_t` values are integers obtained from the
two's-complement reading of a `size_t`.  A function that can dereference a null
pointer or fail an `assert` returns `Option`, with `none` for that outcome.
The comparator and the action are callbacks; the opaque `param` is folded into
the comparator and is the state threaded through the action.  `malloc` is taken
to succeed; trees are considered while their nodes can be counted by a `size_t`
(fewer than `2 ^ 64` nodes), which is what a 64-bit address space allows.
-/

namespace AvlTree

/-- The enum `child_t`: index into `children[2]`. -/
inductive child_t where
  | LEFT
  | RIGHT
  deriving DecidableEq

/-- A pointer to `struct node`: either `NULL` or a node holding its cached
height, `children[LEFT]`, `children[RIGHT]` and the payload reference. -/
inductive node (α : Type) where
  | NULL : node α
  | mk (height : Nat) (left : node α) (right : node α) (data : α) : node α
  deriving DecidableEq

/-- The struct `avl_tree`: the stub's left child is the root; `param` is passed
unchanged to a pure comparator and is folded into `cmp_func`. -/
structure avl_tree (α : Type) where
  root : node α
  cmp_func : α → α → Int

variable {α : Type} {σ : Type}

/-- Number of values of `size_t`. -/
def SIZE_MOD : Nat := 18446744073709551616

/-- Conversion of a `size_t` value to `ssize_t` (two's complement). -/
def toSsize (u : Int) : Int :=
  if u < 9223372036854775808 then u else u - 18446744073709551616

/-- `GetHeight`: 0 for `NULL`, else the cached height field. -/
def GetHeight : node α → Nat
  | .NULL => 0
  | .mk h _ _ _ => h

/-- `Max` on `size_t`. -/
def Max (a b : Nat) : Nat := if a ≥ b then a else b

/-- `CalculateHeight`: stores `Max(GetHeight(left), GetHeight(right)) + 1`
(a `size_t` sum) in the node; the value the C function returns is the height
field of the node returned here (0 for `NULL`). -/
def CalculateHeight : node α → node α
  | .NULL => .NULL
  | .mk _ l r d => .mk ((Max (GetHeight l) (GetHeight r) + 1) % SIZE_MOD) l r d

/-- `CalculateBalance`: the `size_t` difference of the children's cached heights
read as `ssize_t`; `none` when the assertion `node != NULL` fails. -/
def CalculateBalance : node α → Option Int
  | .NULL => none
  | .mk _ l r _ =>
    some (toSsize ((((GetHeight l : Nat) : Int) - ((GetHeight r : Nat) : Int)) % 18446744073709551616))

/-- `RotateOneSide(grandparent, side)`: `parent` is the child on side `!side`
(the right child for `side = LEFT`, the left child for `side = RIGHT`); the
grandparent takes over `parent->children[side]`, becomes `parent->children[side]`
itself, and both heights are recomputed, grandparent first.  `none` when
`grandparent` or `parent` is `NULL` (null dereference). -/
def RotateOneSide : node α → child_t → Option (node α)
  | .NULL, _ => none
  | .mk hg gl gr gd, .LEFT =>
    match gr with
    | .NULL => none
    | .mk hp pl pr pd =>
      some (CalculateHeight (.mk hp (CalculateHeight (.mk hg gl pl gd)) pr pd))
  | .mk hg gl gr gd, .RIGHT =>
    match gl with
    | .NULL => none
    | .mk hp pl pr pd =>
      some (CalculateHeight (.mk hp pl (CalculateHeight (.mk hg pr gr gd)) pd))

/-- `RotateLeft`. -/
def RotateLeft (grandparent : node α) : Option (node α) :=
  RotateOneSide grandparent .LEFT

/-- `RotateRight`. -/
def RotateRight (grandparent : node α) : Option (node α) :=
  RotateOneSide grandparent .RIGHT

/-- `RotateLeftRight`: left-rotate the left child, then right-rotate. -/
def RotateLeftRight : node α → Option (node α)
  | .NULL => none
  | .mk h l r d =>
    match RotateLeft l with
    | none => none
    | some l' => RotateRight (.mk h l' r d)

/-- `RotateRightLeft`: right-rotate the right child, then left-rotate. -/
def RotateRightLeft : node α → Option (node α)
  | .NULL => none
  | .mk h l r d =>
    match RotateRight r with
    | none => none
    | some r' => RotateLeft (.mk h l r' d)

/-- `Balance`: recompute the height, then rotate when the balance factor is
outside `[-1, 1]`; `none` when an assertion fails or a rotation dereferences
`NULL`. -/
def Balance (n : node α) : Option (node α) :=
  match CalculateHeight n with
  | .NULL => none
  | .mk h l r d =>
    match CalculateBalance (.mk h l r d) with
    | none => none
    | some difference =>
      if difference > 1 then
        match CalculateBalance l with
        | none => none
        | some difference =>
          if difference ≥ 0 then RotateRight (.mk h l r d)
          else RotateLeftRight (.mk h l r d)
      else if difference < -1 then
        match CalculateBalance r with
        | none => none
        | some difference =>
          if difference ≤ 0 then RotateLeft (.mk h l r d)
          else RotateRightLeft (.mk h l r d)
      else some (.mk h l r d)

/-- `CreateNode` when `malloc` succeeds. -/
def CreateNode (data : α) : node α := .mk 1 .NULL .NULL data

/-- `GetData`; `none` for a null dereference. -/
def GetData : node α → Option α
  | .NULL => none
  | .mk _ _ _ d => some d

/-- `InsertRecursive`; `none` when `assert(cmp_result != 0)` fails (or a callee
fails). -/
def InsertRecursive (cmp_func : α → α → Int) : node α → node α → Option (node α)
  | .NULL, new_node => some new_node
  | .mk h l r d, new_node =>
    match GetData new_node with
    | none => none
    | some nd =>
      let cmp_result := cmp_func d nd
      if cmp_result = 0 then none
      else if cmp_result < 0 then
        match InsertRecursive cmp_func r new_node with
        | none => none
        | some r' => Balance (.mk h l r' d)
      else
        match InsertRecursive cmp_func l new_node with
        | none => none
        | some l' => Balance (.mk h l' r d)

/-- `AVLTreeCreate` when `malloc` succeeds. -/
def AVLTreeCreate (cmp_func : α → α → Int) : avl_tree α :=
  avl_tree.mk .NULL cmp_func

/-- `AVLTreeIsEmpty`. -/
def AVLTreeIsEmpty (tree : avl_tree α) : Bool :=
  match tree.root with
  | .NULL => true
  | .mk _ _ _ _ => false

/-- `AVLTreeHeight`. -/
def AVLTreeHeight (tree : avl_tree α) : Nat := GetHeight tree.root

/-- `AVLTreeInsert` on the path where `CreateNode` succeeds: `some tree'` is the
tree after a call that returned 0, `none` a failed assertion. -/
def AVLTreeInsert (tree : avl_tree α) (data : α) : Option (avl_tree α) :=
  let new_node := CreateNode data
  if AVLTreeIsEmpty tree then some (avl_tree.mk new_node tree.cmp_func)
  else
    match InsertRecursive tree.cmp_func tree.root new_node with
    | none => none
    | some r => some (avl_tree.mk r tree.cmp_func)

/-- `ForEachRecursive`; the action may update the state behind `param`, so it
maps a payload and a state to its return value and the new state. -/
def ForEachRecursive (action_func : α → σ → Int × σ) : node α → σ → Int × σ
  | .NULL, s => (0, s)
  | .mk _ l r d, s =>
    let p1 := ForEachRecursive action_func l s
    if p1.1 ≠ 0 then p1
    else
      let p2 := action_func d p1.2
      if p2.1 ≠ 0 then p2
      else
        let p3 := ForEachRecursive action_func r p2.2
        if p3.1 ≠ 0 then p3 else (0, p3.2)

/-- `AVLTreeForEach`. -/
def AVLTreeForEach (tree : avl_tree α) (action_func : α → σ → Int × σ) (param : σ) : Int × σ :=
  ForEachRecursive action_func tree.root param

/-- `CountRecursive`, with `size_t` additions. -/
def CountRecursive : node α → Nat
  | .NULL => 0
  | .mk _ l r _ => ((1 + CountRecursive l) % SIZE_MOD + CountRecursive r) % SIZE_MOD

/-- `AVLTreeCount`. -/
def AVLTreeCount (tree : avl_tree α) : Nat := CountRecursive tree.root

/-- `FindRecursive`: the node found, or `NULL`. -/
def FindRecursive (cmp_func : α → α → Int) : node α → α → node α
  | .NULL, _ => .NULL
  | .mk h l r d, data =>
    let cmp_result := cmp_func data d
    if cmp_result = 0 then .mk h l r d
    else if cmp_result > 0 then FindRecursive cmp_func r data
    else FindRecursive cmp_func l data

/-- `AVLTreeFind`: `none` is the `NULL` result. -/
def AVLTreeFind (tree : avl_tree α) (data_to_match : α) : Option α :=
  GetData (FindRecursive tree.cmp_func tree.root data_to_match)

/-- `HasChild`; `none` for a null dereference. -/
def HasChild : node α → child_t → Option Bool
  | .NULL, _ => none
  | .mk _ .NULL _ _, .LEFT => some false
  | .mk _ (.mk _ _ _ _) _ _, .LEFT => some true
  | .mk _ _ .NULL _, .RIGHT => some false
  | .mk _ _ (.mk _ _ _ _) _, .RIGHT => some true

/-- `RemoveWithOneChild`: the left child when there is one, else the right
child; the node itself is freed. -/
def RemoveWithOneChild : node α → Option (node α)
  | .NULL => none
  | .mk _ l r _ =>
    match l with
    | .mk _ _ _ _ => some l
    | .NULL => some r

/-- `DiveAndRemoveRecursive(root_node, side, node_to_change)`: returns the
subtree without its last node on `side`, together with the payload written to
`node_to_change->data`. -/
def DiveAndRemoveRecursive : node α → child_t → Option (node α × α)
  | .NULL, _ => none
  | .mk h l r d, .RIGHT =>
    match r with
    | .NULL =>
      match RemoveWithOneChild (.mk h l .NULL d) with
      | none => none
      | some c => some (c, d)
    | .mk hc cl cr cd =>
      match DiveAndRemoveRecursive (.mk hc cl cr cd) .RIGHT with
      | none => none
      | some (c', nd) =>
        match Balance (.mk h l c' d) with
        | none => none
        | some b => some (b, nd)
  | .mk h l r d, .LEFT =>
    match l with
    | .NULL =>
      match RemoveWithOneChild (.mk h .NULL r d) with
      | none => none
      | some c => some (c, d)
    | .mk hc cl cr cd =>
      match DiveAndRemoveRecursive (.mk hc cl cr cd) .LEFT with
      | none => none
      | some (c', nd) =>
        match Balance (.mk h c' r d) with
        | none => none
        | some b => some (b, nd)

/-- `RemoveWithTwoChildren`: the payload of the last node on the right of the
left subtree replaces the node's payload, that node is removed, and the node
is rebalanced. -/
def RemoveWithTwoChildren : node α → Option (node α)
  | .NULL => none
  | .mk h l r _ =>
    match DiveAndRemoveRecursive l .RIGHT with
    | none => none
    | some (l', nd) => Balance (.mk h l' r nd)

/-- `RemoveRecursive`. -/
def RemoveRecursive (cmp_func : α → α → Int) : node α → α → Option (node α)
  | .NULL, _ => some .NULL
  | .mk h l r d, data =>
    let cmp_result := cmp_func data d
    if cmp_result = 0 then
      if HasChild (.mk h l r d) .LEFT = some true ∧ HasChild (.mk h l r d) .RIGHT = some true then
        RemoveWithTwoChildren (.mk h l r d)
      else RemoveWithOneChild (.mk h l r d)
    else if cmp_result > 0 then
      match RemoveRecursive cmp_func r data with
      | none => none
      | some r' => Balance (.mk h l r' d)
    else
      match RemoveRecursive cmp_func l data with
      | none => none
      | some l' => Balance (.mk h l' r d)

/-- `AVLTreeRemove`. -/
def AVLTreeRemove (tree : avl_tree α) (data_to_remove : α) : Option (avl_tree α) :=
  match RemoveRecursive tree.cmp_func tree.root data_to_remove with
  | none => none
  | some r => some (avl_tree.mk r tree.cmp_func)

/-! ## Specification-level notions -/

/-- True structural height: number of nodes on the longest root-to-leaf path. -/
def height : node α → Nat
  | .NULL => 0
  | .mk _ l r _ => max (height l) (height r) + 1

/-- True number of nodes. -/
def size : node α → Nat
  | .NULL => 0
  | .mk _ l r _ => size l + size r + 1

/-- In-order (left, node, right) payload sequence. -/
def inorder : node α → List α
  | .NULL => []
  | .mk _ l r d => inorder l ++ d :: inorder r

/-- Every node's subtrees differ in structural height by at most one. -/
def Balanced : node α → Prop
  | .NULL => True
  | .mk _ l r _ => Balanced l ∧ Balanced r ∧ height l ≤ height r + 1 ∧ height r ≤ height l + 1

/-- Every node's cached height is one more than the larger cached height of
its children (`GetHeight`, 0 for an absent child). -/
def HeightsExact : node α → Prop
  | .NULL => True
  | .mk h l r _ => HeightsExact l ∧ HeightsExact r ∧ h = 1 + max (GetHeight l) (GetHeight r)

/-- The invariant in terms of cached heights: heights exact and every node
balanced. -/
def AVL : node α → Prop
  | .NULL => True
  | .mk h l r _ => AVL l ∧ AVL r ∧ h = max (GetHeight l) (GetHeight r) + 1 ∧
      GetHeight l ≤ GetHeight r + 1 ∧ GetHeight r ≤ GetHeight l + 1

/-- The comparator orders the in-order sequence strictly ascending. -/
def Ordered (cmp : α → α → Int) (t : node α) : Prop :=
  (inorder t).Pairwise (fun a b => cmp a b < 0)

/-- A three-way comparator that is a strict total order on keys: the sign of
`cmp a b` is opposite to that of `cmp b a`, and `≤` is transitive. -/
structure StrictTotalOrderCmp (cmp : α → α → Int) : Prop where
  symm : ∀ a b, cmp a b < 0 ↔ 0 < cmp b a
  le_trans : ∀ a b c, cmp a b ≤ 0 → cmp b c ≤ 0 → cmp a c ≤ 0

/-- The node `CalculateHeight` produces when no `size_t` sum wraps. -/
def mkNode (l r : node α) (d : α) : node α :=
  .mk (max (GetHeight l) (GetHeight r) + 1) l r d

/-- Payloads stored in the tree, in in-order sequence. -/
def stored (t : avl_tree α) : List α := inorder t.root

/-- Trees obtained from an empty tree by `AVLTreeInsert` calls, each of a
payload comparing unequal to every stored element and made while the tree has
room for one more node among the `2 ^ 64` a `size_t` can count, and
`AVLTreeRemove` calls with any key. -/
inductive Reachable (cmp : α → α → Int) : avl_tree α → Prop where
  | create : Reachable cmp (AVLTreeCreate cmp)
  | insert (t t' : avl_tree α) (x : α) : Reachable cmp t →
      (∀ y ∈ stored t, cmp y x ≠ 0) → size t.root + 1 < SIZE_MOD →
      AVLTreeInsert t x = some t' → Reachable cmp t'
  | remove (t t' : avl_tree α) (k : α) : Reachable cmp t →
      AVLTreeRemove t k = some t' → Reachable cmp t'

/-- What the operations maintain: the handle keeps its comparator, the root is
a valid AVL tree with exact cached heights, ordered by the comparator, and its
nodes can be counted by a `size_t`. -/
def Inv (cmp : α → α → Int) (t : avl_tree α) : Prop :=
  t.cmp_func = cmp ∧ AVL t.root ∧ Ordered cmp t.root ∧ size t.root < SIZE_MOD

/-- An action that appends the payload to the log behind `param` and
returns 0. -/
def recordAction (x : α) (log : List α) : Int × List α := (0, log ++ [x])

/-- The payloads a full `AVLTreeForEach` traversal visits, in order of visit. -/
def visited (t : avl_tree α) : List α := (AVLTreeForEach t recordAction []).2

/-- An action that logs the payload it is invoked on and returns `f` of it. -/
def tracedAction (f : α → Int) (x : α) (log : List α) : Int × List α := (f x, log ++ [x])

/-- The traversal as the interface describes it: the action is invoked on the
elements of a sequence in turn, the first non-zero result halts the traversal
and is returned, and 0 is returned when every invocation returned 0. -/
def forEachSpec (action_func : α → σ → Int × σ) : List α → σ → Int × σ
  | [], s => (0, s)
  | x :: xs, s =>
    let p := action_func x s
    if p.1 ≠ 0 then p else forEachSpec action_func xs p.2

/-- Successive `AVLTreeInsert` calls, one per element of the list, in list
order. -/
def insertAll : avl_tree α → List α → Option (avl_tree α)
  | t, [] => some t
  | t, x :: xs =>
    match AVLTreeInsert t x with
    | none => none
    | some t' => insertAll t' xs

/-- Trees obtained from an empty tree by `k` successful inserts of payloads not
yet present and `j` removes of keys that are present. -/
inductive ReachableCounted (cmp : α → α → Int) : Nat → Nat → avl_tree α → Prop where
  | create : ReachableCounted cmp 0 0 (AVLTreeCreate cmp)
  | insert (k j : Nat) (t t' : avl_tree α) (x : α) : ReachableCounted cmp k j t →
      (∀ y ∈ stored t, cmp y x ≠ 0) → size t.root + 1 < SIZE_MOD →
      AVLTreeInsert t x = some t' → ReachableCounted cmp (k + 1) j t'
  | remove (k j : Nat) (t t' : avl_tree α) (key : α) : ReachableCounted cmp k j t →
      (∃ y ∈ stored t, cmp key y = 0) →
      AVLTreeRemove t key = some t' → ReachableCounted cmp k (j + 1) t'

/-- A comparator on integers in the usual C style. -/
def intCmp (a b : Int) : Int := if a < b then -1 else if b < a then 1 else 0

/-- The tree built from 2, 1, 4, 3, 5. -/
def tree21435 : avl_tree Int :=
  avl_tree.mk
    (.mk 3 (.mk 1 .NULL .NULL 1) (.mk 2 (.mk 1 .NULL .NULL 3) (.mk 1 .NULL .NULL 5) 4) 2) intCmp

/-- The tree built from 2, 1, 4, 3, 5 after removing 2. -/
def tree21435_less2 : avl_tree Int :=
  avl_tree.mk
    (.mk 3 (.mk 2 .NULL (.mk 1 .NULL .NULL 3) 1) (.mk 1 .NULL .NULL 5) 4) intCmp

/-- Payload of the rightmost node of a subtree (`none` for `NULL`). -/
def rightmost : node α → Option α
  | .NULL => none
  | .mk _ _ .NULL d => some d
  | .mk _ _ (.mk hc cl cr cd) _ => rightmost (.mk hc cl cr cd)

/-- The cached height of a node is what `CalculateHeight` stores for its
present children: `Max(GetHeight(left), GetHeight(right)) + 1` as a `size_t`. -/
def HeightCurrent : node α → Prop
  | .NULL => True
  | .mk h l r _ => h = (Max (GetHeight l) (GetHeight r) + 1) % SIZE_MOD

/-- Whether the descent of `InsertRecursive` for payload `x` reaches a node at
which `assert(cmp_result != 0)` fails; the descent takes the same sides as
`InsertRecursive` and the assertion is checked before the recursive call. -/
def InsertAssertionFails (cmp_func : α → α → Int) : node α → α → Bool
  | .NULL, _ => false
  | .mk _ l r d, x =>
    if cmp_func d x = 0 then true
    else if cmp_func d x < 0 then InsertAssertionFails cmp_func r x
    else InsertAssertionFails cmp_func l x

/-- The tree built from 2, 1, 3. -/
def tree213 : avl_tree Int :=
  avl_tree.mk (.mk 2 (.mk 1 .NULL .NULL 1) (.mk 1 .NULL .NULL 3) 2) intCmp

/-- The shape every insertion order of three keys `a < b < c` produces. -/
def threeKeyTree (cmp : α → α → Int) (a b c : α) : avl_tree α :=
  avl_tree.mk (.mk 2 (.mk 1 .NULL .NULL a) (.mk 1 .NULL .NULL c) b) cmp

/-- The tree built from 2, 1, 3 after removing 2. -/
def tree213_less2 : avl_tree Int :=
  avl_tree.mk (.mk 2 .NULL (.mk 1 .NULL .NULL 3) 1) intCmp

/-- A comparator on (key, value) records that looks at the key only, so that
distinct payloads can compare equal. -/
def pairCmp (a b : Int × Int) : Int := intCmp a.1 b.1

/-- The tree holding the single record with key 1 and value 5. -/
def pairTree : avl_tree (Int × Int) :=
  avl_tree.mk (.mk 1 .NULL .NULL (1, 5)) pairCmp

/-! ## Arithmetic of `size_t` and `ssize_t` -/

theorem Max_eq_max (a b : Nat) : Max a b = max a b := by
  unfold Max; split <;> omega

theorem toSsize_sub (a b : Nat) (h1 : (a : Int) - b < 9223372036854775808)
    (h2 : -9223372036854775808 ≤ (a : Int) - b) :
    toSsize (((a : Int) - (b : Int)) % 18446744073709551616) = (a : Int) - b := by
  unfold toSsize; split <;> omega

theorem CalculateHeight_mk (h : Nat) (l r : node α) (d : α)
    (m1 : GetHeight l + 1 < SIZE_MOD) (m2 : GetHeight r + 1 < SIZE_MOD) :
    CalculateHeight (.mk h l r d) = mkNode l r d := by
  have : (max (GetHeight l) (GetHeight r) + 1) % SIZE_MOD = max (GetHeight l) (GetHeight r) + 1 :=
    Nat.mod_eq_of_lt (by omega)
  simp only [CalculateHeight, mkNode, Max_eq_max, this]

theorem CalculateBalance_mk (h : Nat) (l r : node α) (d : α)
    (h1 : (GetHeight l : Int) - GetHeight r < 9223372036854775808)
    (h2 : -9223372036854775808 ≤ (GetHeight l : Int) - GetHeight r) :
    CalculateBalance (.mk h l r d) = some ((GetHeight l : Int) - GetHeight r) := by
  simp only [CalculateBalance, toSsize_sub _ _ h1 h2]

/-! ## `Balance`, case by case -/

theorem Balance_noop (h : Nat) (l r : node α) (d : α)
    (b1 : GetHeight l ≤ GetHeight r + 1) (b2 : GetHeight r ≤ GetHeight l + 1)
    (m1 : GetHeight l + 1 < SIZE_MOD) (m2 : GetHeight r + 1 < SIZE_MOD) :
    Balance (.mk h l r d) = some (mkNode l r d) := by
  unfold SIZE_MOD at m1 m2
  have e : CalculateBalance (mkNode l r d) = some ((GetHeight l : Int) - GetHeight r) :=
    CalculateBalance_mk _ l r d (by omega) (by omega)
  unfold Balance
  rw [CalculateHeight_mk h l r d m1 m2]
  simp only [mkNode] at e ⊢
  simp only [e]
  rw [if_neg (by omega), if_neg (by omega)]

theorem GetHeight_mk (h : Nat) (l r : node α) (d : α) : GetHeight (.mk h l r d) = h := rfl

theorem GetHeight_mkNode (l r : node α) (d : α) :
    GetHeight (mkNode l r d) = max (GetHeight l) (GetHeight r) + 1 := rfl

theorem Balance_rotateRight (h hp : Nat) (pl pr r : node α) (pd d : α)
    (b : hp = GetHeight r + 2) (e : hp = max (GetHeight pl) (GetHeight pr) + 1)
    (c : GetHeight pr ≤ GetHeight pl) (c2 : GetHeight pl ≤ GetHeight pr + 1)
    (m1 : hp + 1 < SIZE_MOD) :
    Balance (.mk h (.mk hp pl pr pd) r d) = some (mkNode pl (mkNode pr r d) pd) := by
  unfold SIZE_MOD at m1
  have e1 : CalculateBalance (mkNode (.mk hp pl pr pd) r d) = some ((hp : Int) - GetHeight r) :=
    CalculateBalance_mk _ _ r d (by rw [GetHeight_mk]; omega) (by rw [GetHeight_mk]; omega)
  have e2 : CalculateBalance (.mk hp pl pr pd) = some ((GetHeight pl : Int) - GetHeight pr) :=
    CalculateBalance_mk _ _ _ _ (by omega) (by omega)
  unfold Balance
  rw [CalculateHeight_mk h _ r d (by rw [GetHeight_mk, SIZE_MOD]; omega) (by rw [SIZE_MOD]; omega)]
  simp only [mkNode] at e1 ⊢
  simp only [e1, e2]
  rw [if_pos (by omega), if_pos (by omega)]
  simp only [RotateRight, RotateOneSide]
  rw [CalculateHeight_mk _ pr r d (by rw [SIZE_MOD]; omega) (by rw [SIZE_MOD]; omega)]
  rw [CalculateHeight_mk _ pl _ pd (by rw [SIZE_MOD]; omega)
    (by rw [SIZE_MOD, GetHeight_mkNode]; omega)]
  rfl

theorem Balance_rotateLeft (h hp : Nat) (l pl pr : node α) (pd d : α)
    (b : hp = GetHeight l + 2) (e : hp = max (GetHeight pl) (GetHeight pr) + 1)
    (c : GetHeight pl ≤ GetHeight pr) (c2 : GetHeight pr ≤ GetHeight pl + 1)
    (m1 : hp + 1 < SIZE_MOD) :
    Balance (.mk h l (.mk hp pl pr pd) d) = some (mkNode (mkNode l pl d) pr pd) := by
  unfold SIZE_MOD at m1
  have e1 : CalculateBalance (mkNode l (.mk hp pl pr pd) d) = some ((GetHeight l : Int) - hp) :=
    CalculateBalance_mk _ l _ d (by rw [GetHeight_mk]; omega) (by rw [GetHeight_mk]; omega)
  have e2 : CalculateBalance (.mk hp pl pr pd) = some ((GetHeight pl : Int) - GetHeight pr) :=
    CalculateBalance_mk _ _ _ _ (by omega) (by omega)
  unfold Balance
  rw [CalculateHeight_mk h l _ d (by rw [SIZE_MOD]; omega) (by rw [GetHeight_mk, SIZE_MOD]; omega)]
  simp only [mkNode] at e1 ⊢
  simp only [e1, e2]
  rw [if_neg (by omega), if_pos (by omega), if_pos (by omega)]
  simp only [RotateLeft, RotateOneSide]
  rw [CalculateHeight_mk _ l pl d (by rw [SIZE_MOD]; omega) (by rw [SIZE_MOD]; omega)]
  rw [CalculateHeight_mk _ _ pr pd (by rw [SIZE_MOD, GetHeight_mkNode]; omega)
    (by rw [SIZE_MOD]; omega)]
  rfl

theorem Balance_rotateLeftRight (h hp hq : Nat) (pl ql qr r : node α) (pd qd d : α)
    (b : hp = GetHeight r + 2) (e : hp = max (GetHeight pl) hq + 1)
    (eq : hq = max (GetHeight ql) (GetHeight qr) + 1)
    (c : GetHeight pl < hq) (c2 : hq ≤ GetHeight pl + 1)
    (m1 : hp + 1 < SIZE_MOD) :
    Balance (.mk h (.mk hp pl (.mk hq ql qr qd) pd) r d)
      = some (mkNode (mkNode pl ql pd) (mkNode qr r d) qd) := by
  unfold SIZE_MOD at m1
  have e1 : CalculateBalance (mkNode (.mk hp pl (.mk hq ql qr qd) pd) r d)
      = some ((hp : Int) - GetHeight r) :=
    CalculateBalance_mk _ _ r d (by rw [GetHeight_mk]; omega) (by rw [GetHeight_mk]; omega)
  have e2 : CalculateBalance (.mk hp pl (.mk hq ql qr qd) pd) = some ((GetHeight pl : Int) - hq) :=
    CalculateBalance_mk _ _ _ _ (by rw [GetHeight_mk]; omega) (by rw [GetHeight_mk]; omega)
  unfold Balance
  rw [CalculateHeight_mk h _ r d (by rw [GetHeight_mk, SIZE_MOD]; omega) (by rw [SIZE_MOD]; omega)]
  simp only [mkNode] at e1 ⊢
  simp only [e1, e2]
  rw [if_pos (by omega), if_neg (by omega)]
  simp only [RotateLeftRight, RotateLeft, RotateRight, RotateOneSide]
  rw [CalculateHeight_mk _ pl ql pd (by rw [SIZE_MOD]; omega) (by rw [SIZE_MOD]; omega)]
  rw [CalculateHeight_mk _ _ qr qd (by rw [SIZE_MOD, GetHeight_mkNode]; omega)
    (by rw [SIZE_MOD]; omega)]
  simp only [mkNode]
  rw [CalculateHeight_mk _ qr r d (by rw [SIZE_MOD]; omega) (by rw [SIZE_MOD]; omega)]
  rw [CalculateHeight_mk _ _ _ qd (by rw [SIZE_MOD, GetHeight_mk]; omega)
    (by rw [SIZE_MOD, GetHeight_mkNode]; omega)]
  rfl

theorem Balance_rotateRightLeft (h hp hq : Nat) (l ql qr pr : node α) (pd qd d : α)
    (b : hp = GetHeight l + 2) (e : hp = max hq (GetHeight pr) + 1)
    (eq : hq = max (GetHeight ql) (GetHeight qr) + 1)
    (c : GetHeight pr < hq) (c2 : hq ≤ GetHeight pr + 1)
    (m1 : hp + 1 < SIZE_MOD) :
    Balance (.mk h l (.mk hp (.mk hq ql qr qd) pr pd) d)
      = some (mkNode (mkNode l ql d) (mkNode qr pr pd) qd) := by
  unfold SIZE_MOD at m1
  have e1 : CalculateBalance (mkNode l (.mk hp (.mk hq ql qr qd) pr pd) d)
      = some ((GetHeight l : Int) - hp) :=
    CalculateBalance_mk _ l _ d (by rw [GetHeight_mk]; omega) (by rw [GetHeight_mk]; omega)
  have e2 : CalculateBalance (.mk hp (.mk hq ql qr qd) pr pd) = some ((hq : Int) - GetHeight pr) :=
    CalculateBalance_mk _ _ _ _ (by rw [GetHeight_mk]; omega) (by rw [GetHeight_mk]; omega)
  unfold Balance
  rw [CalculateHeight_mk h l _ d (by rw [SIZE_MOD]; omega) (by rw [GetHeight_mk, SIZE_MOD]; omega)]
  simp only [mkNode] at e1 ⊢
  simp only [e1, e2]
  rw [if_neg (by omega), if_pos (by omega), if_neg (by omega)]
  simp only [RotateRightLeft, RotateLeft, RotateRight, RotateOneSide]
  rw [CalculateHeight_mk _ qr pr pd (by rw [SIZE_MOD]; omega) (by rw [SIZE_MOD]; omega)]
  rw [CalculateHeight_mk _ ql _ qd (by rw [SIZE_MOD]; omega)
    (by rw [SIZE_MOD, GetHeight_mkNode]; omega)]
  simp only [mkNode]
  rw [CalculateHeight_mk _ l ql d (by rw [SIZE_MOD]; omega) (by rw [SIZE_MOD]; omega)]
  rw [CalculateHeight_mk _ _ _ qd (by rw [SIZE_MOD, GetHeight_mkNode]; omega)
    (by rw [SIZE_MOD, GetHeight_mk]; omega)]
  rfl

/-- What `Balance` does to a node whose children are valid AVL subtrees with
cached heights at most two apart. -/
theorem Balance_ok (h : Nat) (l r : node α) (d : α) (al : AVL l) (ar : AVL r)
    (b1 : GetHeight l ≤ GetHeight r + 2) (b2 : GetHeight r ≤ GetHeight l + 2)
    (m1 : GetHeight l + 1 < SIZE_MOD) (m2 : GetHeight r + 1 < SIZE_MOD) :
    ∃ t, Balance (.mk h l r d) = some t ∧ AVL t ∧
      inorder t = inorder l ++ d :: inorder r ∧ size t = size l + size r + 1 ∧
      (GetHeight t = max (GetHeight l) (GetHeight r) + 1 ∨
        GetHeight t = max (GetHeight l) (GetHeight r)) ∧
      (GetHeight l ≤ GetHeight r + 1 → GetHeight r ≤ GetHeight l + 1 → t = mkNode l r d) := by
  by_cases c1 : GetHeight l ≤ GetHeight r + 1
  · by_cases c2 : GetHeight r ≤ GetHeight l + 1
    · refine ⟨mkNode l r d, Balance_noop h l r d c1 c2 m1 m2, ?_, rfl, rfl, Or.inl rfl, fun _ _ => rfl⟩
      exact ⟨al, ar, rfl, c1, c2⟩
    · -- right-heavy by two
      have hr2 : GetHeight r = GetHeight l + 2 := by omega
      cases r with
      | NULL => simp only [GetHeight] at hr2; omega
      | mk hp pl pr pd =>
        rw [GetHeight_mk] at hr2 m2 b2 c2 ⊢
        obtain ⟨apl, apr, e, q1, q2⟩ := ar
        by_cases c : GetHeight pl ≤ GetHeight pr
        · refine ⟨_, Balance_rotateLeft h hp l pl pr pd d hr2 e c q2 m2, ?_, ?_, ?_, ?_, ?_⟩
          · refine ⟨⟨al, apl, rfl, ?_, ?_⟩, apr, rfl, ?_, ?_⟩ <;>
              (try simp only [GetHeight_mkNode]) <;> omega
          · simp only [mkNode, inorder, List.append_assoc, List.cons_append]
          · simp only [mkNode, size]; omega
          · simp only [GetHeight_mkNode]; omega
          · intro _ h2; omega
        · have hq1 : GetHeight pl = GetHeight pr + 1 := by omega
          cases pl with
          | NULL => simp only [GetHeight] at hq1; omega
          | mk hq ql qr qd =>
            rw [GetHeight_mk] at hq1 e q1 q2 c
            obtain ⟨aql, aqr, eq, q3, q4⟩ := apl
            refine ⟨_, Balance_rotateRightLeft h hp hq l ql qr pr pd qd d hr2 e eq (by omega)
              (by omega) m2, ?_, ?_, ?_, ?_, ?_⟩
            · refine ⟨⟨al, aql, rfl, ?_, ?_⟩, ⟨aqr, apr, rfl, ?_, ?_⟩, rfl, ?_, ?_⟩ <;>
                (try simp only [GetHeight_mkNode]) <;> omega
            · simp only [mkNode, inorder, List.append_assoc, List.cons_append]
            · simp only [mkNode, size]; omega
            · simp only [GetHeight_mkNode]; omega
            · intro _ h2; omega
  · -- left-heavy by two
    have hl2 : GetHeight l = GetHeight r + 2 := by omega
    cases l with
    | NULL => simp only [GetHeight] at hl2; omega
    | mk hp pl pr pd =>
      rw [GetHeight_mk] at hl2 m1 b1 c1 ⊢
      obtain ⟨apl, apr, e, q1, q2⟩ := al
      by_cases c : GetHeight pr ≤ GetHeight pl
      · refine ⟨_, Balance_rotateRight h hp pl pr r pd d hl2 e c q1 m1, ?_, ?_, ?_, ?_, ?_⟩
        · refine ⟨apl, ⟨apr, ar, rfl, ?_, ?_⟩, rfl, ?_, ?_⟩ <;>
            (try simp only [GetHeight_mkNode]) <;> omega
        · simp only [mkNode, inorder, List.append_assoc, List.cons_append]
        · simp only [mkNode, size]; omega
        · simp only [GetHeight_mkNode]; omega
        · intro h1 _; omega
      · have hq1 : GetHeight pr = GetHeight pl + 1 := by omega
        cases pr with
        | NULL => simp only [GetHeight] at hq1; omega
        | mk hq ql qr qd =>
          rw [GetHeight_mk] at hq1 e q1 q2 c
          obtain ⟨aql, aqr, eq, q3, q4⟩ := apr
          refine ⟨_, Balance_rotateLeftRight h hp hq pl ql qr r pd qd d hl2 e eq (by omega)
            (by omega) m1, ?_, ?_, ?_, ?_, ?_⟩
          · refine ⟨⟨apl, aql, rfl, ?_, ?_⟩, ⟨aqr, ar, rfl, ?_, ?_⟩, rfl, ?_, ?_⟩ <;>
              (try simp only [GetHeight_mkNode]) <;> omega
          · simp only [mkNode, inorder, List.append_assoc, List.cons_append]
          · simp only [mkNode, size]; omega
          · simp only [GetHeight_mkNode]; omega
          · intro h1 _; omega

/-! ## The comparator -/

theorem StrictTotalOrderCmp.refl {cmp : α → α → Int} (sto : StrictTotalOrderCmp cmp) (a : α) :
    cmp a a = 0 := by
  have := sto.symm a a
  omega

theorem StrictTotalOrderCmp.eq_symm {cmp : α → α → Int} (sto : StrictTotalOrderCmp cmp) {a b : α}
    (h : cmp a b = 0) : cmp b a = 0 := by
  have h1 := sto.symm a b
  have h2 := sto.symm b a
  omega

theorem StrictTotalOrderCmp.lt_trans {cmp : α → α → Int} (sto : StrictTotalOrderCmp cmp)
    {a b c : α} (h1 : cmp a b < 0) (h2 : cmp b c < 0) : cmp a c < 0 := by
  have s1 := sto.symm a c
  have s2 := sto.symm c a
  have s3 := sto.symm b c
  have t := sto.le_trans c a b
  omega

theorem StrictTotalOrderCmp.lt_of_lt_of_eq {cmp : α → α → Int} (sto : StrictTotalOrderCmp cmp)
    {a b c : α} (h1 : cmp a b < 0) (h2 : cmp b c = 0) : cmp a c < 0 := by
  have s1 := sto.symm a c
  have s2 := sto.symm c a
  have s3 := sto.symm a b
  have s4 := sto.symm b c
  have s5 := sto.symm c b
  have t := sto.le_trans b c a
  omega

theorem StrictTotalOrderCmp.lt_of_eq_of_lt {cmp : α → α → Int} (sto : StrictTotalOrderCmp cmp)
    {a b c : α} (h1 : cmp a b = 0) (h2 : cmp b c < 0) : cmp a c < 0 := by
  have s1 := sto.symm a c
  have s2 := sto.symm c a
  have s3 := sto.symm a b
  have s4 := sto.symm b a
  have s5 := sto.symm b c
  have t := sto.le_trans c a b
  omega

theorem StrictTotalOrderCmp.eq_trans {cmp : α → α → Int} (sto : StrictTotalOrderCmp cmp)
    {a b c : α} (h1 : cmp a b = 0) (h2 : cmp b c = 0) : cmp a c = 0 := by
  have s1 := sto.symm a c
  have s2 := sto.symm c a
  have s3 := sto.symm a b
  have s4 := sto.symm b a
  have s5 := sto.symm b c
  have s6 := sto.symm c b
  have t1 := sto.le_trans a b c
  have t2 := sto.le_trans c b a
  omega

/-! ## Ordered trees -/

theorem Ordered_mk (cmp : α → α → Int) (h : Nat) (l r : node α) (d : α) :
    Ordered cmp (.mk h l r d) ↔ Ordered cmp l ∧ Ordered cmp r ∧
      (∀ a ∈ inorder l, cmp a d < 0) ∧ (∀ b ∈ inorder r, cmp d b < 0) ∧
      (∀ a ∈ inorder l, ∀ b ∈ inorder r, cmp a b < 0) := by
  simp only [Ordered, inorder, List.pairwise_append, List.pairwise_cons, List.mem_cons]
  constructor
  · rintro ⟨h1, ⟨h2, h3⟩, h4⟩
    exact ⟨h1, h3, fun a ha => h4 a ha d (Or.inl rfl), h2, fun a ha b hb => h4 a ha b (Or.inr hb)⟩
  · rintro ⟨h1, h2, h3, h4, h5⟩
    refine ⟨h1, ⟨h4, h2⟩, ?_⟩
    rintro a ha b (rfl | hb)
    · exact h3 a ha
    · exact h5 a ha b hb

theorem AVL_child_lt (h : Nat) (l r : node α) (d : α) (a : AVL (.mk h l r d)) :
    GetHeight l < h ∧ GetHeight r < h := by
  obtain ⟨_, _, e, _, _⟩ := a
  omega

/-! ## Insertion -/

/-- What `InsertRecursive` does on a valid ordered subtree for a fresh payload. -/
theorem InsertRecursive_ok (cmp : α → α → Int) (sto : StrictTotalOrderCmp cmp) (x : α) :
    ∀ t : node α, AVL t → Ordered cmp t → (∀ y ∈ inorder t, cmp y x ≠ 0) →
      GetHeight t + 1 < SIZE_MOD →
      ∃ t', InsertRecursive cmp t (CreateNode x) = some t' ∧ AVL t' ∧
        (GetHeight t' = GetHeight t ∨ GetHeight t' = GetHeight t + 1) ∧
        size t' = size t + 1 ∧
        ∃ pre post, inorder t = pre ++ post ∧ inorder t' = pre ++ x :: post ∧
          (∀ y ∈ pre, cmp y x < 0) ∧ (∀ y ∈ post, cmp x y < 0) := by
  intro t
  induction t with
  | NULL =>
    intro _ _ _ _
    refine ⟨CreateNode x, rfl, ?_, Or.inr rfl, rfl, [], [], rfl, rfl, ?_, ?_⟩
    · exact ⟨trivial, trivial, rfl, Nat.le_succ _, Nat.le_succ _⟩
    · intro y hy; cases hy
    · intro y hy; cases hy
  | mk h l r d ihl ihr =>
    intro a o fresh m
    have ch := AVL_child_lt h l r d a
    obtain ⟨al, ar, e, q1, q2⟩ := a
    obtain ⟨ol, or', ld, dr, _⟩ := (Ordered_mk cmp h l r d).1 o
    rw [GetHeight_mk] at m
    have fd : cmp d x ≠ 0 := fresh d (by simp [inorder])
    have fl : ∀ y ∈ inorder l, cmp y x ≠ 0 := fun y hy => fresh y (by simp [inorder, hy])
    have fr : ∀ y ∈ inorder r, cmp y x ≠ 0 := fun y hy => fresh y (by simp [inorder, hy])
    by_cases c : cmp d x < 0
    · obtain ⟨r', er, ar', hr', sr', pre, post, i1, i2, p1, p2⟩ := ihr ar or' fr (by omega)
      obtain ⟨t', et, at', it', st', ht', nb⟩ :=
        Balance_ok h l r' d al ar' (by omega) (by omega) (by omega) (by omega)
      refine ⟨t', ?_, at', ?_, ?_, inorder l ++ d :: pre, post, ?_, ?_, ?_, p2⟩
      · simp only [InsertRecursive, CreateNode, GetData, if_neg fd, if_pos c]
        simp only [CreateNode] at er
        rw [er]; exact et
      · have nb' : GetHeight l ≤ GetHeight r' + 1 → GetHeight r' ≤ GetHeight l + 1 →
            GetHeight t' = max (GetHeight l) (GetHeight r') + 1 := by
          intro h1 h2; rw [nb h1 h2]; rfl
        rw [GetHeight_mk]; omega
      · simp only [size]; omega
      · simp only [inorder, i1, List.append_assoc, List.cons_append]
      · simp only [it', i2, List.append_assoc, List.cons_append]
      · intro y hy
        simp only [List.mem_append, List.mem_cons] at hy
        rcases hy with hy | rfl | hy
        · exact sto.lt_trans (ld y hy) c
        · exact c
        · exact p1 y hy
    · have c' : cmp x d < 0 := by
        have := sto.symm x d
        omega
      obtain ⟨l', el, al', hl', sl', pre, post, i1, i2, p1, p2⟩ := ihl al ol fl (by omega)
      obtain ⟨t', et, at', it', st', ht', nb⟩ :=
        Balance_ok h l' r d al' ar (by omega) (by omega) (by omega) (by omega)
      refine ⟨t', ?_, at', ?_, ?_, pre, post ++ d :: inorder r, ?_, ?_, p1, ?_⟩
      · simp only [InsertRecursive, CreateNode, GetData, if_neg fd, if_neg c]
        simp only [CreateNode] at el
        rw [el]; exact et
      · have nb' : GetHeight l' ≤ GetHeight r + 1 → GetHeight r ≤ GetHeight l' + 1 →
            GetHeight t' = max (GetHeight l') (GetHeight r) + 1 := by
          intro h1 h2; rw [nb h1 h2]; rfl
        rw [GetHeight_mk]; omega
      · simp only [size]; omega
      · simp only [inorder, i1, List.append_assoc, List.cons_append]
      · simp only [it', i2, List.append_assoc, List.cons_append]
      · intro y hy
        simp only [List.mem_append, List.mem_cons] at hy
        rcases hy with hy | rfl | hy
        · exact p2 y hy
        · exact c'
        · exact sto.lt_trans c' (dr y hy)

/-! ## Removal -/

/-- What the dive to the right does on a valid non-empty subtree: the last
payload is handed back and its node is gone. -/
theorem DiveAndRemoveRecursive_ok :
    ∀ (t : node α), t ≠ .NULL → AVL t → GetHeight t < SIZE_MOD →
      ∃ t' m, DiveAndRemoveRecursive t .RIGHT = some (t', m) ∧ AVL t' ∧
        (GetHeight t' = GetHeight t ∨ GetHeight t' + 1 = GetHeight t) ∧
        size t' + 1 = size t ∧ inorder t = inorder t' ++ [m] := by
  intro t
  induction t with
  | NULL => intro hne; exact absurd rfl hne
  | mk h l r d _ ihr =>
    intro _ a m
    obtain ⟨al, ar, e, q1, q2⟩ := a
    rw [GetHeight_mk] at m ⊢
    cases r with
    | NULL =>
      have z : GetHeight (node.NULL : node α) = 0 := rfl
      rw [z] at e q1 q2
      refine ⟨l, d, ?_, al, Or.inr (by omega), ?_, ?_⟩
      · cases l <;> rfl
      · simp [size]
      · simp only [inorder]
    | mk hc cl cr cd =>
      rw [GetHeight_mk] at e q1 q2
      obtain ⟨r', x, er, ar', hr', sr', ir'⟩ := ihr (by simp) ar (by rw [GetHeight_mk]; omega)
      rw [GetHeight_mk] at hr'
      obtain ⟨t', et, at', it', st', ht', nb⟩ :=
        Balance_ok h l r' d al ar' (by omega) (by omega) (by omega) (by omega)
      refine ⟨t', x, ?_, at', ?_, ?_, ?_⟩
      · simp only [DiveAndRemoveRecursive, er, et]
      · have nb' : GetHeight l ≤ GetHeight r' + 1 → GetHeight r' ≤ GetHeight l + 1 →
            GetHeight t' = max (GetHeight l) (GetHeight r') + 1 := by
          intro h1 h2; rw [nb h1 h2]; rfl
        omega
      · simp only [size] at sr' ⊢; omega
      · rw [it']; simp only [inorder] at ir' ⊢
        rw [ir']; simp only [List.append_assoc, List.cons_append]

/-- What `RemoveWithTwoChildren` does on a valid node with a left child. -/
theorem RemoveWithTwoChildren_ok (h : Nat) (l r : node α) (d : α) (hl : l ≠ .NULL)
    (a : AVL (.mk h l r d)) (m : h < SIZE_MOD) :
    ∃ t', RemoveWithTwoChildren (.mk h l r d) = some t' ∧ AVL t' ∧
      (GetHeight t' = h ∨ GetHeight t' + 1 = h) ∧
      size t' = size l + size r ∧ inorder t' = inorder l ++ inorder r := by
  obtain ⟨al, ar, e, q1, q2⟩ := a
  obtain ⟨l', x, el, al', hl', sl', il'⟩ := DiveAndRemoveRecursive_ok l hl al (by omega)
  obtain ⟨t', et, at', it', st', ht', nb⟩ :=
    Balance_ok h l' r x al' ar (by omega) (by omega) (by omega) (by omega)
  refine ⟨t', ?_, at', ?_, ?_, ?_⟩
  · simp only [RemoveWithTwoChildren, el, et]
  · have nb' : GetHeight l' ≤ GetHeight r + 1 → GetHeight r ≤ GetHeight l' + 1 →
        GetHeight t' = max (GetHeight l') (GetHeight r) + 1 := by
      intro h1 h2; rw [nb h1 h2]; rfl
    omega
  · omega
  · rw [it', il']; simp only [List.append_assoc, List.cons_append, List.nil_append]

/-- Removing a key that matches no stored payload returns the very same
subtree. -/
theorem RemoveRecursive_absent (cmp : α → α → Int) (k : α) :
    ∀ t : node α, AVL t → (∀ y ∈ inorder t, cmp k y ≠ 0) → GetHeight t < SIZE_MOD →
      RemoveRecursive cmp t k = some t := by
  intro t
  induction t with
  | NULL => intro _ _ _; rfl
  | mk h l r d ihl ihr =>
    intro a fresh m
    obtain ⟨al, ar, e, q1, q2⟩ := a
    rw [GetHeight_mk] at m
    have fd : cmp k d ≠ 0 := fresh d (by simp [inorder])
    have fl : ∀ y ∈ inorder l, cmp k y ≠ 0 := fun y hy => fresh y (by simp [inorder, hy])
    have fr : ∀ y ∈ inorder r, cmp k y ≠ 0 := fun y hy => fresh y (by simp [inorder, hy])
    have nb : Balance (.mk h l r d) = some (.mk h l r d) := by
      rw [Balance_noop h l r d q1 q2 (by omega) (by omega), mkNode, ← e]
    by_cases c : cmp k d > 0
    · simp only [RemoveRecursive, if_neg fd, if_pos c, ihr ar fr (by omega), nb]
    · simp only [RemoveRecursive, if_neg fd, if_neg c, ihl al fl (by omega), nb]

theorem filter_ne_of_gt {cmp : α → α → Int} (sto : StrictTotalOrderCmp cmp) (k : α) (xs : List α)
    (h : ∀ y ∈ xs, cmp y k < 0) : xs.filter (fun y => decide (cmp k y ≠ 0)) = xs := by
  rw [List.filter_eq_self]
  intro y hy
  have := sto.symm y k
  have := h y hy
  simp only [ne_eq, decide_eq_true_eq]
  omega

theorem filter_ne_of_lt {cmp : α → α → Int} (k : α) (xs : List α)
    (h : ∀ y ∈ xs, cmp k y < 0) : xs.filter (fun y => decide (cmp k y ≠ 0)) = xs := by
  rw [List.filter_eq_self]
  intro y hy
  have := h y hy
  simp only [ne_eq, decide_eq_true_eq]
  omega

/-- What `RemoveRecursive` does on a valid ordered subtree. -/
theorem RemoveRecursive_ok (cmp : α → α → Int) (sto : StrictTotalOrderCmp cmp) (k : α) :
    ∀ t : node α, AVL t → Ordered cmp t → GetHeight t < SIZE_MOD →
      ∃ t', RemoveRecursive cmp t k = some t' ∧ AVL t' ∧
        (GetHeight t' = GetHeight t ∨ GetHeight t' + 1 = GetHeight t) ∧
        inorder t' = (inorder t).filter (fun y => decide (cmp k y ≠ 0)) ∧
        ((∃ y ∈ inorder t, cmp k y = 0) → size t' + 1 = size t) := by
  intro t
  induction t with
  | NULL =>
    intro _ _ _
    exact ⟨.NULL, rfl, trivial, Or.inl rfl, rfl, fun ⟨y, hy, _⟩ => by cases hy⟩
  | mk h l r d ihl ihr =>
    intro a o m
    have a0 := a
    obtain ⟨al, ar, e, q1, q2⟩ := a
    obtain ⟨ol, or', ld, dr, _⟩ := (Ordered_mk cmp h l r d).1 o
    rw [GetHeight_mk] at m ⊢
    by_cases c0 : cmp k d = 0
    · -- the match: every payload on the left is smaller, on the right larger
      have kl : ∀ y ∈ inorder l, cmp y k < 0 := fun y hy =>
        sto.lt_of_lt_of_eq (ld y hy) (sto.eq_symm c0)
      have kr : ∀ y ∈ inorder r, cmp k y < 0 := fun y hy => sto.lt_of_eq_of_lt c0 (dr y hy)
      have flt : (inorder (.mk h l r d)).filter (fun y => decide (cmp k y ≠ 0))
          = inorder l ++ inorder r := by
        simp only [inorder, List.filter_append, List.filter_cons, filter_ne_of_gt sto k _ kl,
          filter_ne_of_lt k _ kr, c0, ne_eq, not_true_eq_false, decide_False, Bool.false_eq_true,
          if_false]
      rw [flt]
      cases l with
      | NULL =>
        refine ⟨r, ?_, ar, ?_, by simp [inorder], fun _ => by simp [size]⟩
        · simp [RemoveRecursive, c0, HasChild, RemoveWithOneChild]
        · have z : GetHeight (node.NULL : node α) = 0 := rfl
          rw [z] at e q1 q2; omega
      | mk hl ll lr ldat =>
        cases r with
        | NULL =>
          refine ⟨_, ?_, al, ?_, by simp [inorder], fun _ => by simp [size]⟩
          · simp [RemoveRecursive, c0, HasChild, RemoveWithOneChild]
          · have z : GetHeight (node.NULL : node α) = 0 := rfl
            rw [z] at e q1 q2; omega
        | mk hr rl rr rdat =>
          obtain ⟨t', et, at', ht', st', it'⟩ :=
            RemoveWithTwoChildren_ok h (.mk hl ll lr ldat) (.mk hr rl rr rdat) d (by simp) a0 m
          refine ⟨t', ?_, at', ht', it', fun _ => ?_⟩
          · simp only [RemoveRecursive, c0, HasChild, if_true, and_self]
            exact et
          · rw [st']; simp only [size]
    · by_cases c : cmp k d > 0
      · have c' : cmp d k < 0 := by
          have := sto.symm d k
          omega
        obtain ⟨r', er, ar', hr', ir', sr'⟩ := ihr ar or' (by omega)
        obtain ⟨t', et, at', it', st', ht', nb⟩ :=
          Balance_ok h l r' d al ar' (by omega) (by omega) (by omega) (by omega)
        have kl : ∀ y ∈ inorder l, cmp y k < 0 := fun y hy => sto.lt_trans (ld y hy) c'
        refine ⟨t', ?_, at', ?_, ?_, ?_⟩
        · simp only [RemoveRecursive, if_neg c0, if_pos c, er, et]
        · have nb' : GetHeight l ≤ GetHeight r' + 1 → GetHeight r' ≤ GetHeight l + 1 →
              GetHeight t' = max (GetHeight l) (GetHeight r') + 1 := by
            intro h1 h2; rw [nb h1 h2]; rfl
          omega
        · rw [it', ir']
          simp only [inorder, List.filter_append, List.filter_cons, filter_ne_of_gt sto k _ kl,
            c0, ne_eq, not_false_eq_true, decide_True, if_true]
        · rintro ⟨y, hy, hk⟩
          simp only [inorder, List.mem_append, List.mem_cons] at hy
          have hy' : y ∈ inorder r := by
            rcases hy with hy | rfl | hy
            · have := kl y hy
              have := sto.symm y k
              omega
            · exact absurd hk c0
            · exact hy
          have := sr' ⟨y, hy', hk⟩
          simp only [size]; omega
      · have c' : cmp k d < 0 := by omega
        obtain ⟨l', el, al', hl', il', sl'⟩ := ihl al ol (by omega)
        obtain ⟨t', et, at', it', st', ht', nb⟩ :=
          Balance_ok h l' r d al' ar (by omega) (by omega) (by omega) (by omega)
        have kr : ∀ y ∈ inorder r, cmp k y < 0 := fun y hy => sto.lt_trans c' (dr y hy)
        refine ⟨t', ?_, at', ?_, ?_, ?_⟩
        · simp only [RemoveRecursive, if_neg c0, if_neg c, el, et]
        · have nb' : GetHeight l' ≤ GetHeight r + 1 → GetHeight r ≤ GetHeight l' + 1 →
              GetHeight t' = max (GetHeight l') (GetHeight r) + 1 := by
            intro h1 h2; rw [nb h1 h2]; rfl
          omega
        · rw [it', il']
          simp only [inorder, List.filter_append, List.filter_cons, filter_ne_of_lt k _ kr,
            c0, ne_eq, not_false_eq_true, decide_True, if_true]
        · rintro ⟨y, hy, hk⟩
          simp only [inorder, List.mem_append, List.mem_cons] at hy
          have hy' : y ∈ inorder l := by
            rcases hy with hy | rfl | hy
            · exact hy
            · exact absurd hk c0
            · have := kr y hy
              omega
          have := sl' ⟨y, hy', hk⟩
          simp only [size]; omega

/-! ## Lookup -/

theorem FindRecursive_sound (cmp : α → α → Int) (k : α) :
    ∀ (t : node α) (p : α), GetData (FindRecursive cmp t k) = some p →
      p ∈ inorder t ∧ cmp k p = 0 := by
  intro t
  induction t with
  | NULL => intro p hp; simp [FindRecursive, GetData] at hp
  | mk h l r d ihl ihr =>
    intro p hp
    simp only [FindRecursive] at hp
    by_cases c0 : cmp k d = 0
    · rw [if_pos c0] at hp
      simp only [GetData, Option.some.injEq] at hp
      subst hp
      exact ⟨by simp [inorder], c0⟩
    · rw [if_neg c0] at hp
      by_cases c : cmp k d > 0
      · rw [if_pos c] at hp
        obtain ⟨h1, h2⟩ := ihr p hp
        exact ⟨by simp [inorder, h1], h2⟩
      · rw [if_neg c] at hp
        obtain ⟨h1, h2⟩ := ihl p hp
        exact ⟨by simp [inorder, h1], h2⟩

theorem FindRecursive_complete (cmp : α → α → Int) (sto : StrictTotalOrderCmp cmp) (k : α) :
    ∀ (t : node α), Ordered cmp t → ∀ p ∈ inorder t, cmp k p = 0 →
      GetData (FindRecursive cmp t k) = some p := by
  intro t
  induction t with
  | NULL => intro _ p hp; cases hp
  | mk h l r d ihl ihr =>
    intro o p hp kp
    obtain ⟨ol, or', ld, dr, _⟩ := (Ordered_mk cmp h l r d).1 o
    simp only [inorder, List.mem_append, List.mem_cons] at hp
    simp only [FindRecursive]
    by_cases c0 : cmp k d = 0
    · rw [if_pos c0]
      have pd : cmp p d = 0 := sto.eq_trans (sto.eq_symm kp) c0
      rcases hp with hp | rfl | hp
      · have := ld p hp; omega
      · rfl
      · have := dr p hp
        have := sto.symm d p
        omega
    · rw [if_neg c0]
      by_cases c : cmp k d > 0
      · rw [if_pos c]
        have dk : cmp d k < 0 := by
          have := sto.symm d k
          omega
        rcases hp with hp | rfl | hp
        · have := sto.lt_of_lt_of_eq (sto.lt_trans (ld p hp) dk) kp
          have := sto.refl p
          omega
        · exact absurd kp c0
        · exact ihr or' p hp kp
      · rw [if_neg c]
        have kd : cmp k d < 0 := by omega
        rcases hp with hp | rfl | hp
        · exact ihl ol p hp kp
        · exact absurd kp c0
        · have := sto.lt_of_eq_of_lt (sto.eq_symm kp) (sto.lt_trans kd (dr p hp))
          have := sto.refl p
          omega

theorem FindRecursive_none_iff (cmp : α → α → Int) (sto : StrictTotalOrderCmp cmp) (k : α)
    (t : node α) (o : Ordered cmp t) :
    GetData (FindRecursive cmp t k) = none ↔ ∀ p ∈ inorder t, cmp k p ≠ 0 := by
  constructor
  · intro hn p hp kp
    rw [FindRecursive_complete cmp sto k t o p hp kp] at hn
    cases hn
  · intro hall
    cases hf : GetData (FindRecursive cmp t k) with
    | none => rfl
    | some p =>
      obtain ⟨h1, h2⟩ := FindRecursive_sound cmp k t p hf
      exact absurd h2 (hall p h1)

/-! ## Heights, sizes and the Fibonacci bound -/

theorem AVL_height_eq : ∀ t : node α, AVL t → GetHeight t = height t := by
  intro t
  induction t with
  | NULL => intro _; rfl
  | mk h l r d ihl ihr =>
    rintro ⟨al, ar, e, _, _⟩
    rw [GetHeight_mk, height, ← ihl al, ← ihr ar, e]

theorem AVL_Balanced : ∀ t : node α, AVL t → Balanced t := by
  intro t
  induction t with
  | NULL => intro _; trivial
  | mk h l r d ihl ihr =>
    rintro ⟨al, ar, e, q1, q2⟩
    refine ⟨ihl al, ihr ar, ?_, ?_⟩
    · rw [← AVL_height_eq l al, ← AVL_height_eq r ar]; exact q1
    · rw [← AVL_height_eq l al, ← AVL_height_eq r ar]; exact q2

theorem AVL_HeightsExact : ∀ t : node α, AVL t → HeightsExact t := by
  intro t
  induction t with
  | NULL => intro _; trivial
  | mk h l r d ihl ihr =>
    rintro ⟨al, ar, e, _, _⟩
    exact ⟨ihl al, ihr ar, by omega⟩

theorem height_le_size : ∀ t : node α, height t ≤ size t := by
  intro t
  induction t with
  | NULL => exact Nat.le_refl _
  | mk h l r d ihl ihr => simp only [height, size]; omega

theorem size_eq_length : ∀ t : node α, size t = (inorder t).length := by
  intro t
  induction t with
  | NULL => rfl
  | mk h l r d ihl ihr => simp only [size, inorder, List.length_append, List.length_cons]; omega

theorem CountRecursive_eq_size : ∀ t : node α, size t < SIZE_MOD → CountRecursive t = size t := by
  intro t
  induction t with
  | NULL => intro _; rfl
  | mk h l r d ihl ihr =>
    intro m
    simp only [size] at m
    have e1 := ihl (by omega)
    have e2 := ihr (by omega)
    simp only [CountRecursive, size, e1, e2]
    unfold SIZE_MOD at m ⊢
    omega

theorem AVL_fib : ∀ t : node α, AVL t → Nat.fib (GetHeight t + 2) ≤ size t + 1 := by
  intro t
  induction t with
  | NULL => intro _; exact Nat.le_refl 1
  | mk h l r d ihl ihr =>
    rintro ⟨al, ar, e, q1, q2⟩
    have il := ihl al
    have ir := ihr ar
    rw [GetHeight_mk, size]
    by_cases c : GetHeight r ≤ GetHeight l
    · have e1 : h + 2 = GetHeight l + 1 + 2 := by omega
      have mono : Nat.fib (GetHeight l + 1) ≤ Nat.fib (GetHeight r + 2) :=
        Nat.fib_mono (by omega)
      rw [e1, Nat.fib_add_two]
      have e2 : GetHeight l + 1 + 1 = GetHeight l + 2 := rfl
      rw [e2]; omega
    · have e1 : h + 2 = GetHeight r + 1 + 2 := by omega
      have mono : Nat.fib (GetHeight r + 1) ≤ Nat.fib (GetHeight l + 2) :=
        Nat.fib_mono (by omega)
      rw [e1, Nat.fib_add_two]
      have e2 : GetHeight r + 1 + 1 = GetHeight r + 2 := rfl
      rw [e2]; omega

/-! ## The public operations on a tree satisfying the invariant -/

theorem intCmp_sto : StrictTotalOrderCmp intCmp := by
  constructor
  · intro a b; unfold intCmp; split_ifs <;> omega
  · intro a b c; unfold intCmp; split_ifs <;> omega

theorem AVLTreeInsert_eq (t : avl_tree α) (x : α) :
    AVLTreeInsert t x =
      (InsertRecursive t.cmp_func t.root (CreateNode x)).map (fun r => avl_tree.mk r t.cmp_func) := by
  obtain ⟨root, cmp⟩ := t
  cases root with
  | NULL => rfl
  | mk h l r d =>
    simp only [AVLTreeInsert, AVLTreeIsEmpty, Bool.false_eq_true, if_false]
    cases InsertRecursive cmp (.mk h l r d) (CreateNode x) <;> rfl

theorem pairwise_insert_mid (cmp : α → α → Int) (x : α) (pre post : List α)
    (o : (pre ++ post).Pairwise (fun a b => cmp a b < 0))
    (p1 : ∀ y ∈ pre, cmp y x < 0) (p2 : ∀ y ∈ post, cmp x y < 0) :
    (pre ++ x :: post).Pairwise (fun a b => cmp a b < 0) := by
  rw [List.pairwise_append] at o ⊢
  obtain ⟨o1, o2, o3⟩ := o
  refine ⟨o1, List.pairwise_cons.2 ⟨p2, o2⟩, ?_⟩
  intro a ha b hb
  rcases List.mem_cons.1 hb with rfl | hb
  · exact p1 a ha
  · exact o3 a ha b hb

theorem Inv_height_le {cmp : α → α → Int} {t : avl_tree α} (hi : Inv cmp t) :
    GetHeight t.root ≤ size t.root := by
  obtain ⟨_, a, _, _⟩ := hi
  rw [AVL_height_eq _ a]; exact height_le_size _

theorem AVLTreeInsert_ok (cmp : α → α → Int) (sto : StrictTotalOrderCmp cmp) (t : avl_tree α)
    (x : α) (hi : Inv cmp t) (fresh : ∀ y ∈ inorder t.root, cmp y x ≠ 0)
    (room : size t.root + 1 < SIZE_MOD) :
    ∃ t', AVLTreeInsert t x = some t' ∧ Inv cmp t' ∧ size t'.root = size t.root + 1 ∧
      ∃ pre post, stored t = pre ++ post ∧ stored t' = pre ++ x :: post ∧
        (∀ y ∈ pre, cmp y x < 0) ∧ (∀ y ∈ post, cmp x y < 0) := by
  have hh := Inv_height_le hi
  obtain ⟨ce, a, o, _⟩ := hi
  obtain ⟨r', er, ar', _, sr', pre, post, i1, i2, p1, p2⟩ :=
    InsertRecursive_ok cmp sto x t.root a o fresh (by omega)
  refine ⟨avl_tree.mk r' t.cmp_func, ?_, ⟨ce, ar', ?_, by simp only; omega⟩, sr',
    pre, post, i1, i2, p1, p2⟩
  · rw [AVLTreeInsert_eq, ce, er]; rfl
  · show (inorder r').Pairwise _
    rw [i2]
    exact pairwise_insert_mid cmp x pre post (by rw [← i1]; exact o) p1 p2

theorem AVLTreeRemove_ok (cmp : α → α → Int) (sto : StrictTotalOrderCmp cmp) (t : avl_tree α)
    (k : α) (hi : Inv cmp t) :
    ∃ t', AVLTreeRemove t k = some t' ∧ Inv cmp t' ∧
      stored t' = (stored t).filter (fun y => decide (cmp k y ≠ 0)) ∧
      ((∃ y ∈ inorder t.root, cmp k y = 0) → size t'.root + 1 = size t.root) := by
  have hh := Inv_height_le hi
  obtain ⟨ce, a, o, m⟩ := hi
  obtain ⟨r', er, ar', _, ir', sr'⟩ := RemoveRecursive_ok cmp sto k t.root a o (by omega)
  have sz : size r' ≤ size t.root := by
    rw [size_eq_length, size_eq_length, ir']
    exact List.length_filter_le _ _
  refine ⟨avl_tree.mk r' t.cmp_func, ?_, ⟨ce, ar', ?_, by simp only; omega⟩, ir', sr'⟩
  · simp only [AVLTreeRemove, ce, er]
  · show (inorder r').Pairwise _
    rw [ir']
    exact List.Pairwise.filter _ o

theorem Reachable_Inv (cmp : α → α → Int) (sto : StrictTotalOrderCmp cmp) (t : avl_tree α)
    (h : Reachable cmp t) : Inv cmp t := by
  induction h with
  | create => exact ⟨rfl, trivial, List.Pairwise.nil, (by decide : 0 < SIZE_MOD)⟩
  | insert t t' x _ fresh room e ih =>
    obtain ⟨t'', e', hi, _⟩ := AVLTreeInsert_ok cmp sto t x ih fresh room
    rw [e] at e'
    cases e'
    exact hi
  | remove t t' k _ e ih =>
    obtain ⟨t'', e', hi, _⟩ := AVLTreeRemove_ok cmp sto t k ih
    rw [e] at e'
    cases e'
    exact hi

theorem ReachableCounted_Reachable (cmp : α → α → Int) (k j : Nat) (t : avl_tree α)
    (h : ReachableCounted cmp k j t) : Reachable cmp t := by
  induction h with
  | create => exact Reachable.create
  | insert k j t t' x _ fresh room e ih => exact Reachable.insert t t' x ih fresh room e
  | remove k j t t' key _ _ e ih => exact Reachable.remove t t' key ih e

theorem AVLTreeCount_eq_size (cmp : α → α → Int) (t : avl_tree α) (hi : Inv cmp t) :
    AVLTreeCount t = size t.root :=
  CountRecursive_eq_size t.root hi.2.2.2

/-! ## Traversal -/

theorem forEachSpec_append (action_func : α → σ → Int × σ) (xs ys : List α) (s : σ) :
    forEachSpec action_func (xs ++ ys) s =
      if (forEachSpec action_func xs s).1 ≠ 0 then forEachSpec action_func xs s
      else forEachSpec action_func ys (forEachSpec action_func xs s).2 := by
  induction xs generalizing s with
  | nil => simp [forEachSpec]
  | cons x xs ih =>
    simp only [List.cons_append, forEachSpec]
    by_cases c : (action_func x s).1 ≠ 0
    · simp only [if_pos c]
    · simp only [if_neg c]; exact ih _

theorem ForEachRecursive_eq_spec (action_func : α → σ → Int × σ) :
    ∀ (t : node α) (s : σ),
      ForEachRecursive action_func t s = forEachSpec action_func (inorder t) s := by
  intro t
  induction t with
  | NULL => intro s; rfl
  | mk h l r d ihl ihr =>
    intro s
    simp only [ForEachRecursive, inorder, forEachSpec_append, forEachSpec, ihl, ihr]
    by_cases c1 : (forEachSpec action_func (inorder l) s).1 ≠ 0
    · simp only [if_pos c1]
    · simp only [if_neg c1]
      by_cases c2 : (action_func d (forEachSpec action_func (inorder l) s).2).1 ≠ 0
      · simp only [if_pos c2]
      · simp only [if_neg c2]
        by_cases c3 : (forEachSpec action_func (inorder r)
            (action_func d (forEachSpec action_func (inorder l) s).2).2).1 ≠ 0
        · simp only [if_pos c3]
        · simp only [if_neg c3]
          rw [not_not] at c3
          exact Prod.ext c3.symm rfl

theorem forEachSpec_traced_all (f : α → Int) :
    ∀ (xs : List α) (log : List α), (∀ x ∈ xs, f x = 0) →
      forEachSpec (tracedAction f) xs log = (0, log ++ xs) := by
  intro xs
  induction xs with
  | nil => intro log _; simp [forEachSpec]
  | cons x xs ih =>
    intro log h0
    have hx : f x = 0 := h0 x (List.mem_cons_self _ _)
    simp only [forEachSpec, tracedAction, hx, ne_eq, not_true_eq_false, if_false]
    rw [ih _ (fun y hy => h0 y (List.mem_cons_of_mem _ hy))]
    simp

theorem forEachSpec_traced_stop (f : α → Int) (pre post : List α) (x : α) (log : List α)
    (h0 : ∀ y ∈ pre, f y = 0) (hx : f x ≠ 0) :
    forEachSpec (tracedAction f) (pre ++ x :: post) log = (f x, log ++ pre ++ [x]) := by
  rw [forEachSpec_append, forEachSpec_traced_all f pre log h0]
  simp only [ne_eq, not_true_eq_false, if_false, forEachSpec, tracedAction]
  rw [if_pos hx]

theorem visited_eq_stored (t : avl_tree α) : visited t = stored t := by
  have h := forEachSpec_traced_all (fun _ : α => (0 : Int)) (inorder t.root) [] (fun _ _ => rfl)
  simp only [visited, AVLTreeForEach, ForEachRecursive_eq_spec, stored]
  have e : (recordAction : α → List α → Int × List α) = tracedAction (fun _ => 0) := rfl
  rw [e, h]; simp

/-! ## Building a tree from a list -/

theorem insertAll_ok (cmp : α → α → Int) (sto : StrictTotalOrderCmp cmp) :
    ∀ (xs : List α) (t : avl_tree α), Reachable cmp t →
      (∀ y ∈ stored t, ∀ x ∈ xs, cmp y x ≠ 0) →
      xs.Pairwise (fun a b => cmp a b ≠ 0) → size t.root + xs.length < SIZE_MOD →
      ∃ t', insertAll t xs = some t' ∧ Reachable cmp t' ∧ (stored t').Perm (stored t ++ xs) := by
  intro xs
  induction xs with
  | nil =>
    intro t rt _ _ _
    exact ⟨t, rfl, rt, by simp⟩
  | cons x xs ih =>
    intro t rt fresh pw room
    rw [List.length_cons] at room
    obtain ⟨px, pxs⟩ := List.pairwise_cons.1 pw
    have fx : ∀ y ∈ stored t, cmp y x ≠ 0 := fun y hy => fresh y hy x (List.mem_cons_self _ _)
    obtain ⟨t1, e1, _, s1, pre, post, i1, i2, _, _⟩ :=
      AVLTreeInsert_ok cmp sto t x (Reachable_Inv cmp sto t rt) fx (by omega)
    have r1 : Reachable cmp t1 := Reachable.insert t t1 x rt fx (by omega) e1
    have f1 : ∀ y ∈ stored t1, ∀ z ∈ xs, cmp y z ≠ 0 := by
      intro y hy z hz
      rw [i2] at hy
      simp only [List.mem_append, List.mem_cons] at hy
      rcases hy with hy | rfl | hy
      · exact fresh y (by rw [i1]; simp [hy]) z (List.mem_cons_of_mem _ hz)
      · exact px z hz
      · exact fresh y (by rw [i1]; simp [hy]) z (List.mem_cons_of_mem _ hz)
    obtain ⟨t', e', r', p'⟩ := ih t1 r1 f1 pxs (by omega)
    refine ⟨t', ?_, r', ?_⟩
    · simp only [insertAll, e1, e']
    · refine p'.trans ?_
      rw [i1, i2]
      simp only [List.append_assoc, List.cons_append]
      exact List.Perm.append_left pre List.perm_middle.symm

theorem sorted_perm_eq (cmp : α → α → Int) (sto : StrictTotalOrderCmp cmp) (xs ys : List α)
    (p : xs.Perm ys) (sx : xs.Pairwise (fun a b => cmp a b < 0))
    (sy : ys.Pairwise (fun a b => cmp a b < 0)) : xs = ys := by
  haveI : IsAntisymm α (fun a b => cmp a b < 0) := ⟨fun a b h1 h2 => by
    have := sto.symm a b
    have h1' : cmp a b < 0 := h1
    have h2' : cmp b a < 0 := h2
    omega⟩
  exact List.eq_of_perm_of_sorted p sx sy

/-! ## The example trees -/

theorem reachable_tree21435 : Reachable intCmp tree21435 := by
  obtain ⟨t', e, r, _⟩ := insertAll_ok intCmp intCmp_sto [2, 1, 4, 3, 5] (AVLTreeCreate intCmp)
    Reachable.create (by decide) (by decide) (by decide)
  have e' : insertAll (AVLTreeCreate intCmp) [2, 1, 4, 3, 5] = some tree21435 := rfl
  rw [e'] at e
  cases e
  exact r

theorem reachable_tree21435_less2 : Reachable intCmp tree21435_less2 :=
  Reachable.remove tree21435 tree21435_less2 2 reachable_tree21435 rfl

/-! ## The claims -/

/-- C1, balance invariant: in every tree obtained from an empty tree by inserts
of payloads unequal to all stored ones and removes of arbitrary keys, under a
strict-total-order comparator, the two subtrees of every node differ in true
structural height by at most one. -/
theorem balance_invariant (cmp : α → α → Int) (sto : StrictTotalOrderCmp cmp)
    (t : avl_tree α) (h : Reachable cmp t) : Balanced t.root :=
  AVL_Balanced t.root (Reachable_Inv cmp sto t h).2.1

theorem balance_invariant_witness :
    Reachable intCmp tree21435_less2 ∧ Balanced tree21435_less2.root :=
  ⟨reachable_tree21435_less2,
    balance_invariant intCmp intCmp_sto tree21435_less2 reachable_tree21435_less2⟩

/-- C2, search-order invariant: the payloads a full `AVLTreeForEach` traversal
of a reachable tree visits are strictly ascending under the comparator, and two
trees built by inserting the same pairwise-unequal keys in different orders are
traversed in the same sequence. -/
theorem search_order_invariant (cmp : α → α → Int) (sto : StrictTotalOrderCmp cmp) :
    (∀ t : avl_tree α, Reachable cmp t → (visited t).Pairwise (fun a b => cmp a b < 0)) ∧
    (∀ xs ys : List α, xs.Perm ys → xs.Pairwise (fun a b => cmp a b ≠ 0) →
      xs.length < SIZE_MOD →
      ∃ t1 t2, insertAll (AVLTreeCreate cmp) xs = some t1 ∧
        insertAll (AVLTreeCreate cmp) ys = some t2 ∧ visited t1 = visited t2) := by
  have asc : ∀ t : avl_tree α, Reachable cmp t →
      (visited t).Pairwise (fun a b => cmp a b < 0) := by
    intro t rt
    rw [visited_eq_stored]
    exact (Reachable_Inv cmp sto t rt).2.2.1
  refine ⟨asc, ?_⟩
  intro xs ys p pw len
  have pwy : ys.Pairwise (fun a b => cmp a b ≠ 0) :=
    (List.Perm.pairwise_iff (fun {a b} (hab : cmp a b ≠ 0) (hba : cmp b a = 0) =>
      hab (sto.eq_symm hba)) p).1 pw
  obtain ⟨t1, e1, r1, p1⟩ := insertAll_ok cmp sto xs (AVLTreeCreate cmp) Reachable.create
    (fun y hy => by cases hy) pw (by simpa [AVLTreeCreate, size] using len)
  obtain ⟨t2, e2, r2, p2⟩ := insertAll_ok cmp sto ys (AVLTreeCreate cmp) Reachable.create
    (fun y hy => by cases hy) pwy (by rw [← p.length_eq]; simpa [AVLTreeCreate, size] using len)
  refine ⟨t1, t2, e1, e2, ?_⟩
  have pp : (visited t1).Perm (visited t2) := by
    rw [visited_eq_stored, visited_eq_stored]
    have q1 : (stored t1).Perm xs := by simpa [stored, AVLTreeCreate, inorder] using p1
    have q2 : (stored t2).Perm ys := by simpa [stored, AVLTreeCreate, inorder] using p2
    exact (q1.trans p).trans q2.symm
  exact sorted_perm_eq cmp sto _ _ pp (asc t1 r1) (asc t2 r2)

theorem search_order_invariant_witness :
    (visited tree21435_less2).Pairwise (fun a b => intCmp a b < 0) ∧
    (∃ t1 t2, insertAll (AVLTreeCreate intCmp) [1, 2, 3] = some t1 ∧
      insertAll (AVLTreeCreate intCmp) [3, 1, 2] = some t2 ∧ visited t1 = visited t2) :=
  ⟨(search_order_invariant intCmp intCmp_sto).1 tree21435_less2 reachable_tree21435_less2,
    (search_order_invariant intCmp intCmp_sto).2 [1, 2, 3] [3, 1, 2] (by decide) (by decide)
      (by decide)⟩

theorem pairCmp_sto : StrictTotalOrderCmp pairCmp :=
  ⟨fun a b => intCmp_sto.symm a.1 b.1, fun a b c => intCmp_sto.le_trans a.1 b.1 c.1⟩

theorem reachable_pairTree : Reachable pairCmp pairTree :=
  Reachable.insert (AVLTreeCreate pairCmp) pairTree (1, 5) Reachable.create
    (by decide) (by decide) rfl

/-- C3, insert/find round trip: on a reachable tree with room for one more
node, inserting a payload `x` unequal to every stored element returns normally,
and on the resulting tree `AVLTreeFind` returns the inserted payload `x` itself
for every key that compares equal to `x` (for `x` in particular), whatever
rotations the insertion performed. -/
theorem insert_find_roundtrip (cmp : α → α → Int) (sto : StrictTotalOrderCmp cmp)
    (t : avl_tree α) (h : Reachable cmp t) (x : α) (fresh : ∀ y ∈ stored t, cmp y x ≠ 0)
    (room : size t.root + 1 < SIZE_MOD) :
    ∃ t', AVLTreeInsert t x = some t' ∧ AVLTreeFind t' x = some x ∧
      ∀ k, cmp k x = 0 → AVLTreeFind t' k = some x := by
  obtain ⟨t', e, ⟨ce, _, o, _⟩, _, pre, post, _, i2, _, _⟩ :=
    AVLTreeInsert_ok cmp sto t x (Reachable_Inv cmp sto t h) fresh room
  have mem : x ∈ inorder t'.root := by
    show x ∈ stored t'
    rw [i2]; simp
  have all : ∀ k, cmp k x = 0 → AVLTreeFind t' k = some x := by
    intro k hk
    unfold AVLTreeFind
    rw [ce]
    exact FindRecursive_complete cmp sto k t'.root o x mem hk
  exact ⟨t', e, all x (sto.refl x), all⟩

theorem insert_find_roundtrip_witness :
    (Reachable intCmp tree21435_less2 ∧ (∀ y ∈ stored tree21435_less2, intCmp y 2 ≠ 0) ∧
      size tree21435_less2.root + 1 < SIZE_MOD ∧
      ∃ t', AVLTreeInsert tree21435_less2 2 = some t' ∧ AVLTreeFind t' 2 = some 2 ∧
        ∀ k, intCmp k 2 = 0 → AVLTreeFind t' k = some 2) ∧
    (Reachable pairCmp pairTree ∧ (∀ y ∈ stored pairTree, pairCmp y (2, 7) ≠ 0) ∧
      size pairTree.root + 1 < SIZE_MOD ∧ pairCmp (2, 0) (2, 7) = 0 ∧
      ∃ t', AVLTreeInsert pairTree (2, 7) = some t' ∧ AVLTreeFind t' (2, 0) = some (2, 7)) :=
  ⟨⟨reachable_tree21435_less2, by decide, by decide,
      insert_find_roundtrip intCmp intCmp_sto tree21435_less2 reachable_tree21435_less2 2
        (by decide) (by decide)⟩,
    ⟨reachable_pairTree, by decide, by decide, by decide,
      (insert_find_roundtrip pairCmp pairCmp_sto pairTree reachable_pairTree (2, 7)
        (by decide) (by decide)).elim
        (fun t' ht => ⟨t', ht.1, ht.2.2 (2, 0) (by decide)⟩)⟩⟩

/-- C4, remove deletes exactly the matching element: on a reachable tree,
removing a key `k` that compares equal to a stored element `p` returns normally;
afterwards `AVLTreeFind` of `k` is absent and `AVLTreeFind` of every other
previously stored element still returns that element. -/
theorem remove_deletes_exactly (cmp : α → α → Int) (sto : StrictTotalOrderCmp cmp)
    (t : avl_tree α) (h : Reachable cmp t) (k p : α) (hp : p ∈ stored t) (hk : cmp k p = 0) :
    ∃ t', AVLTreeRemove t k = some t' ∧ AVLTreeFind t' k = none ∧
      ∀ q ∈ stored t, q ≠ p → AVLTreeFind t' q = some q := by
  have hi := Reachable_Inv cmp sto t h
  obtain ⟨t', e, ⟨ce, _, o', _⟩, st', _⟩ := AVLTreeRemove_ok cmp sto t k hi
  have mem : ∀ y, y ∈ stored t' ↔ y ∈ stored t ∧ cmp k y ≠ 0 := by
    intro y; rw [st']; simp [List.mem_filter]
  refine ⟨t', e, ?_, ?_⟩
  · unfold AVLTreeFind
    rw [ce, FindRecursive_none_iff cmp sto k t'.root o']
    intro y hy
    exact ((mem y).1 hy).2
  · intro q hq hne
    have distinct : (stored t).Pairwise (fun a b => cmp a b ≠ 0) :=
      List.Pairwise.imp (fun {a b} (hab : cmp a b < 0) => by omega) hi.2.2.1
    have qp : cmp q p ≠ 0 :=
      List.Pairwise.forall (fun {a b} (hab : cmp a b ≠ 0) (hba : cmp b a = 0) =>
        hab (sto.eq_symm hba)) distinct hq hp hne
    have kq : cmp k q ≠ 0 := fun c => qp (sto.eq_trans (sto.eq_symm c) hk)
    unfold AVLTreeFind
    rw [ce]
    exact FindRecursive_complete cmp sto q t'.root o' q ((mem q).2 ⟨hq, kq⟩) (sto.refl q)

theorem remove_deletes_exactly_witness :
    Reachable intCmp tree21435 ∧ (2 : Int) ∈ stored tree21435 ∧ intCmp 2 2 = 0 ∧
    ∃ t', AVLTreeRemove tree21435 2 = some t' ∧ AVLTreeFind t' 2 = none ∧
      ∀ q ∈ stored tree21435, q ≠ 2 → AVLTreeFind t' q = some q :=
  ⟨reachable_tree21435, by decide, by decide,
    remove_deletes_exactly intCmp intCmp_sto tree21435 reachable_tree21435 2 2 (by decide)
      (by decide)⟩

/-- C5, count consistency: on a reachable tree, a successful insert of a payload
not yet present raises `AVLTreeCount` by exactly one and a remove of a present
key lowers it by exactly one; so after `k` such inserts and `j` such removes
from an empty tree `AVLTreeCount` returns `k - j`. -/
theorem count_consistency (cmp : α → α → Int) (sto : StrictTotalOrderCmp cmp) :
    (∀ (t : avl_tree α) (x : α), Reachable cmp t → (∀ y ∈ stored t, cmp y x ≠ 0) →
      size t.root + 1 < SIZE_MOD →
      ∃ t', AVLTreeInsert t x = some t' ∧ AVLTreeCount t' = AVLTreeCount t + 1) ∧
    (∀ (t : avl_tree α) (key : α), Reachable cmp t → (∃ y ∈ stored t, cmp key y = 0) →
      ∃ t', AVLTreeRemove t key = some t' ∧ AVLTreeCount t' + 1 = AVLTreeCount t) ∧
    (∀ (k j : Nat) (t : avl_tree α), ReachableCounted cmp k j t →
      j ≤ k ∧ AVLTreeCount t = k - j) := by
  have ins : ∀ (t : avl_tree α) (x : α), Reachable cmp t → (∀ y ∈ stored t, cmp y x ≠ 0) →
      size t.root + 1 < SIZE_MOD →
      ∃ t', AVLTreeInsert t x = some t' ∧ AVLTreeCount t' = AVLTreeCount t + 1 := by
    intro t x rt fresh room
    have hi := Reachable_Inv cmp sto t rt
    obtain ⟨t', e, hi', s', _⟩ := AVLTreeInsert_ok cmp sto t x hi fresh room
    exact ⟨t', e, by rw [AVLTreeCount_eq_size cmp t' hi', AVLTreeCount_eq_size cmp t hi, s']⟩
  have rem : ∀ (t : avl_tree α) (key : α), Reachable cmp t → (∃ y ∈ stored t, cmp key y = 0) →
      ∃ t', AVLTreeRemove t key = some t' ∧ AVLTreeCount t' + 1 = AVLTreeCount t := by
    intro t key rt present
    have hi := Reachable_Inv cmp sto t rt
    obtain ⟨t', e, hi', _, s'⟩ := AVLTreeRemove_ok cmp sto t key hi
    exact ⟨t', e, by
      rw [AVLTreeCount_eq_size cmp t' hi', AVLTreeCount_eq_size cmp t hi, s' present]⟩
  refine ⟨ins, rem, ?_⟩
  intro k j t rc
  induction rc with
  | create => exact ⟨Nat.le_refl 0, rfl⟩
  | insert k j t t' x rc fresh room e ih =>
    obtain ⟨t'', e', c⟩ := ins t x (ReachableCounted_Reachable cmp k j t rc) fresh room
    rw [e] at e'; cases e'
    omega
  | remove k j t t' key rc present e ih =>
    obtain ⟨t'', e', c⟩ := rem t key (ReachableCounted_Reachable cmp k j t rc) present
    rw [e] at e'; cases e'
    omega

theorem counted_example :
    ReachableCounted intCmp 2 1 (avl_tree.mk (.mk 1 .NULL .NULL 2) intCmp) :=
  ReachableCounted.remove 2 0 (avl_tree.mk (.mk 2 (.mk 1 .NULL .NULL 1) .NULL 2) intCmp) _ 1
    (ReachableCounted.insert 1 0 (avl_tree.mk (.mk 1 .NULL .NULL 2) intCmp) _ 1
      (ReachableCounted.insert 0 0 (AVLTreeCreate intCmp) _ 2 ReachableCounted.create
        (by decide) (by decide) rfl)
      (by decide) (by decide) rfl)
    ⟨1, by decide, by decide⟩ rfl

theorem count_consistency_witness :
    (∃ t', AVLTreeInsert tree21435_less2 2 = some t' ∧
      AVLTreeCount t' = AVLTreeCount tree21435_less2 + 1) ∧
    (∃ t', AVLTreeRemove tree21435 2 = some t' ∧ AVLTreeCount t' + 1 = AVLTreeCount tree21435) ∧
    (1 ≤ 2 ∧ AVLTreeCount (avl_tree.mk (.mk 1 .NULL .NULL 2) intCmp) = 2 - 1) :=
  ⟨(count_consistency intCmp intCmp_sto).1 tree21435_less2 2 reachable_tree21435_less2
      (by decide) (by decide),
    (count_consistency intCmp intCmp_sto).2.1 tree21435 2 reachable_tree21435
      ⟨2, by decide, by decide⟩,
    (count_consistency intCmp intCmp_sto).2.2 2 1 _ counted_example⟩

/-- C6, removing an absent key is a no-op: on a reachable tree, `AVLTreeRemove`
with a key unequal to every stored element returns the tree unchanged, with the
same shape, the same payload at every position and the same cached height in
every node. -/
theorem remove_absent_noop (cmp : α → α → Int) (sto : StrictTotalOrderCmp cmp)
    (t : avl_tree α) (h : Reachable cmp t) (k : α) (absent : ∀ y ∈ stored t, cmp k y ≠ 0) :
    AVLTreeRemove t k = some t := by
  have hh := Inv_height_le (Reachable_Inv cmp sto t h)
  obtain ⟨ce, a, _, m⟩ := Reachable_Inv cmp sto t h
  unfold AVLTreeRemove
  rw [ce, RemoveRecursive_absent cmp k t.root a absent (by omega), ← ce]

theorem remove_absent_noop_witness :
    Reachable intCmp tree21435_less2 ∧ (∀ y ∈ stored tree21435_less2, intCmp 2 y ≠ 0) ∧
    AVLTreeRemove tree21435_less2 2 = some tree21435_less2 :=
  ⟨reachable_tree21435_less2, by decide,
    remove_absent_noop intCmp intCmp_sto tree21435_less2 reachable_tree21435_less2 2
      (by decide)⟩

/-- C7, short-circuit traversal: `AVLTreeForEach` invokes the action on the
payloads in in-order sequence, stopping at the first invocation that returns
non-zero and returning that value, and returning 0 after invoking the action
once on every element when all invocations return 0 (also for an empty tree).
Stated for an arbitrary state-threading action against the interface's
description, and for a logging action to make the invocations explicit. -/
theorem foreach_short_circuit (tree : avl_tree α) :
    (∀ (τ : Type) (action_func : α → τ → Int × τ) (s : τ),
      AVLTreeForEach tree action_func s = forEachSpec action_func (stored tree) s) ∧
    (∀ f : α → Int, (∀ x ∈ stored tree, f x = 0) →
      AVLTreeForEach tree (tracedAction f) [] = (0, stored tree)) ∧
    (∀ (f : α → Int) (pre post : List α) (x : α), stored tree = pre ++ x :: post →
      (∀ y ∈ pre, f y = 0) → f x ≠ 0 →
      AVLTreeForEach tree (tracedAction f) [] = (f x, pre ++ [x])) := by
  refine ⟨fun τ action_func s => ForEachRecursive_eq_spec action_func tree.root s, ?_, ?_⟩
  · intro f h0
    unfold AVLTreeForEach
    rw [ForEachRecursive_eq_spec]
    have := forEachSpec_traced_all f (stored tree) [] h0
    simpa [stored] using this
  · intro f pre post x e h0 hx
    unfold AVLTreeForEach
    rw [ForEachRecursive_eq_spec]
    have := forEachSpec_traced_stop f pre post x [] h0 hx
    rw [← e] at this
    simpa [stored] using this

theorem foreach_short_circuit_witness :
    AVLTreeForEach tree21435 (tracedAction (fun x : Int => if x = 3 then 7 else 0)) []
      = (7, [1, 2, 3]) ∧
    AVLTreeForEach tree21435 (tracedAction (fun _ : Int => 0)) [] = (0, [1, 2, 3, 4, 5]) :=
  ⟨(foreach_short_circuit tree21435).2.2 (fun x : Int => if x = 3 then 7 else 0)
      [1, 2] [4, 5] 3 rfl (by decide) (by decide),
    (foreach_short_circuit tree21435).2.1 (fun _ : Int => 0) (fun _ _ => rfl)⟩

/-- C8, exact-match lookup: on a reachable tree, `AVLTreeFind` of a key `k`
returns the stored payload that compares equal to `k` when there is one,
wherever it sits in the tree, and returns `NULL` if and only if no stored
payload compares equal to `k`. -/
theorem find_exact_match (cmp : α → α → Int) (sto : StrictTotalOrderCmp cmp)
    (t : avl_tree α) (h : Reachable cmp t) (k : α) :
    (∀ p ∈ stored t, cmp k p = 0 → AVLTreeFind t k = some p) ∧
    (AVLTreeFind t k = none ↔ ∀ p ∈ stored t, cmp k p ≠ 0) := by
  obtain ⟨ce, _, o, _⟩ := Reachable_Inv cmp sto t h
  unfold AVLTreeFind
  rw [ce]
  exact ⟨FindRecursive_complete cmp sto k t.root o, FindRecursive_none_iff cmp sto k t.root o⟩

theorem find_exact_match_witness :
    Reachable intCmp tree21435_less2 ∧
    (∀ p ∈ stored tree21435_less2, intCmp 3 p = 0 → AVLTreeFind tree21435_less2 3 = some p) ∧
    (AVLTreeFind tree21435_less2 3 = none ↔ ∀ p ∈ stored tree21435_less2, intCmp 3 p ≠ 0) :=
  ⟨reachable_tree21435_less2,
    find_exact_match intCmp intCmp_sto tree21435_less2 reachable_tree21435_less2 3⟩

/-- C9, height bound: on a reachable tree with `n = AVLTreeCount` elements and
height `h = AVLTreeHeight`, `Fib (h + 2) ≤ n + 1`, with `Fib 1 = Fib 2 = 1`. -/
theorem height_bound (cmp : α → α → Int) (sto : StrictTotalOrderCmp cmp)
    (t : avl_tree α) (h : Reachable cmp t) :
    Nat.fib (AVLTreeHeight t + 2) ≤ AVLTreeCount t + 1 := by
  have hi := Reachable_Inv cmp sto t h
  rw [AVLTreeCount_eq_size cmp t hi]
  exact AVL_fib t.root hi.2.1

theorem height_bound_witness :
    Reachable intCmp tree21435 ∧ Nat.fib (AVLTreeHeight tree21435 + 2) ≤ AVLTreeCount tree21435 + 1 :=
  ⟨reachable_tree21435, height_bound intCmp intCmp_sto tree21435 reachable_tree21435⟩

/-- C10, cached heights are exact: in a reachable tree every node's cached
height is one more than the larger of its children's heights (0 for an absent
child), so `AVLTreeHeight` is the true structural height of the tree, and it is
0 exactly for the empty tree. -/
theorem cached_heights_exact (cmp : α → α → Int) (sto : StrictTotalOrderCmp cmp)
    (t : avl_tree α) (h : Reachable cmp t) :
    HeightsExact t.root ∧ AVLTreeHeight t = height t.root ∧
      (AVLTreeHeight t = 0 ↔ AVLTreeIsEmpty t = true) := by
  obtain ⟨_, a, _, _⟩ := Reachable_Inv cmp sto t h
  refine ⟨AVL_HeightsExact t.root a, AVL_height_eq t.root a, ?_⟩
  unfold AVLTreeHeight AVLTreeIsEmpty
  cases hr : t.root with
  | NULL => simp [GetHeight]
  | mk hh l r d =>
    rw [hr] at a
    obtain ⟨_, _, e, _, _⟩ := a
    simp only [GetHeight_mk, Bool.false_eq_true, iff_false]
    omega

theorem cached_heights_exact_witness :
    Reachable intCmp tree21435_less2 ∧ HeightsExact tree21435_less2.root ∧
    AVLTreeHeight tree21435_less2 = height tree21435_less2.root ∧
    (AVLTreeHeight tree21435_less2 = 0 ↔ AVLTreeIsEmpty tree21435_less2 = true) :=
  ⟨reachable_tree21435_less2,
    cached_heights_exact intCmp intCmp_sto tree21435_less2 reachable_tree21435_less2⟩

/-! ## `Balance` on children of any height difference -/

theorem AVL_height_small : ∀ t : node α, AVL t → size t < SIZE_MOD → GetHeight t < 92 := by
  intro t a m
  by_contra c
  have f := AVL_fib t a
  have mono : Nat.fib 94 ≤ Nat.fib (GetHeight t + 2) := Nat.fib_mono (by omega)
  have big : Nat.fib 94 = 19740274219868223167 := by norm_num
  unfold SIZE_MOD at m
  omega

theorem Balance_leftHeavy_single (h hp : Nat) (pl pr r : node α) (pd d : α)
    (b : GetHeight r + 2 ≤ hp) (e : hp = max (GetHeight pl) (GetHeight pr) + 1)
    (c : GetHeight pr ≤ GetHeight pl) (c2 : GetHeight pl ≤ GetHeight pr + 1)
    (m1 : hp < 9223372036854775808) :
    Balance (.mk h (.mk hp pl pr pd) r d) = some (mkNode pl (mkNode pr r d) pd) := by
  have e1 : CalculateBalance (mkNode (.mk hp pl pr pd) r d) = some ((hp : Int) - GetHeight r) :=
    CalculateBalance_mk _ _ r d (by rw [GetHeight_mk]; omega) (by rw [GetHeight_mk]; omega)
  have e2 : CalculateBalance (.mk hp pl pr pd) = some ((GetHeight pl : Int) - GetHeight pr) :=
    CalculateBalance_mk _ _ _ _ (by omega) (by omega)
  unfold Balance
  rw [CalculateHeight_mk h _ r d (by rw [GetHeight_mk, SIZE_MOD]; omega) (by rw [SIZE_MOD]; omega)]
  simp only [mkNode] at e1 ⊢
  simp only [e1, e2]
  rw [if_pos (by omega), if_pos (by omega)]
  simp only [RotateRight, RotateOneSide]
  rw [CalculateHeight_mk _ pr r d (by rw [SIZE_MOD]; omega) (by rw [SIZE_MOD]; omega)]
  rw [CalculateHeight_mk _ pl _ pd (by rw [SIZE_MOD]; omega)
    (by rw [SIZE_MOD, GetHeight_mkNode]; omega)]
  rfl

theorem Balance_rightHeavy_single (h hp : Nat) (l pl pr : node α) (pd d : α)
    (b : GetHeight l + 2 ≤ hp) (e : hp = max (GetHeight pl) (GetHeight pr) + 1)
    (c : GetHeight pl ≤ GetHeight pr) (c2 : GetHeight pr ≤ GetHeight pl + 1)
    (m1 : hp < 9223372036854775808) :
    Balance (.mk h l (.mk hp pl pr pd) d) = some (mkNode (mkNode l pl d) pr pd) := by
  have e1 : CalculateBalance (mkNode l (.mk hp pl pr pd) d) = some ((GetHeight l : Int) - hp) :=
    CalculateBalance_mk _ l _ d (by rw [GetHeight_mk]; omega) (by rw [GetHeight_mk]; omega)
  have e2 : CalculateBalance (.mk hp pl pr pd) = some ((GetHeight pl : Int) - GetHeight pr) :=
    CalculateBalance_mk _ _ _ _ (by omega) (by omega)
  unfold Balance
  rw [CalculateHeight_mk h l _ d (by rw [SIZE_MOD]; omega) (by rw [GetHeight_mk, SIZE_MOD]; omega)]
  simp only [mkNode] at e1 ⊢
  simp only [e1, e2]
  rw [if_neg (by omega), if_pos (by omega), if_pos (by omega)]
  simp only [RotateLeft, RotateOneSide]
  rw [CalculateHeight_mk _ l pl d (by rw [SIZE_MOD]; omega) (by rw [SIZE_MOD]; omega)]
  rw [CalculateHeight_mk _ _ pr pd (by rw [SIZE_MOD, GetHeight_mkNode]; omega)
    (by rw [SIZE_MOD]; omega)]
  rfl

theorem Balance_leftHeavy_double (h hp hq : Nat) (pl ql qr r : node α) (pd qd d : α)
    (b : GetHeight r + 2 ≤ hp) (e : hp = max (GetHeight pl) hq + 1)
    (eq : hq = max (GetHeight ql) (GetHeight qr) + 1)
    (c : GetHeight pl < hq) (c2 : hq ≤ GetHeight pl + 1)
    (m1 : hp < 9223372036854775808) :
    Balance (.mk h (.mk hp pl (.mk hq ql qr qd) pd) r d)
      = some (mkNode (mkNode pl ql pd) (mkNode qr r d) qd) := by
  have e1 : CalculateBalance (mkNode (.mk hp pl (.mk hq ql qr qd) pd) r d)
      = some ((hp : Int) - GetHeight r) :=
    CalculateBalance_mk _ _ r d (by rw [GetHeight_mk]; omega) (by rw [GetHeight_mk]; omega)
  have e2 : CalculateBalance (.mk hp pl (.mk hq ql qr qd) pd) = some ((GetHeight pl : Int) - hq) :=
    CalculateBalance_mk _ _ _ _ (by rw [GetHeight_mk]; omega) (by rw [GetHeight_mk]; omega)
  unfold Balance
  rw [CalculateHeight_mk h _ r d (by rw [GetHeight_mk, SIZE_MOD]; omega) (by rw [SIZE_MOD]; omega)]
  simp only [mkNode] at e1 ⊢
  simp only [e1, e2]
  rw [if_pos (by omega), if_neg (by omega)]
  simp only [RotateLeftRight, RotateLeft, RotateRight, RotateOneSide]
  rw [CalculateHeight_mk _ pl ql pd (by rw [SIZE_MOD]; omega) (by rw [SIZE_MOD]; omega)]
  rw [CalculateHeight_mk _ _ qr qd (by rw [SIZE_MOD, GetHeight_mkNode]; omega)
    (by rw [SIZE_MOD]; omega)]
  simp only [mkNode]
  rw [CalculateHeight_mk _ qr r d (by rw [SIZE_MOD]; omega) (by rw [SIZE_MOD]; omega)]
  rw [CalculateHeight_mk _ _ _ qd (by rw [SIZE_MOD, GetHeight_mk]; omega)
    (by rw [SIZE_MOD, GetHeight_mkNode]; omega)]
  rfl

theorem Balance_rightHeavy_double (h hp hq : Nat) (l ql qr pr : node α) (pd qd d : α)
    (b : GetHeight l + 2 ≤ hp) (e : hp = max hq (GetHeight pr) + 1)
    (eq : hq = max (GetHeight ql) (GetHeight qr) + 1)
    (c : GetHeight pr < hq) (c2 : hq ≤ GetHeight pr + 1)
    (m1 : hp < 9223372036854775808) :
    Balance (.mk h l (.mk hp (.mk hq ql qr qd) pr pd) d)
      = some (mkNode (mkNode l ql d) (mkNode qr pr pd) qd) := by
  have e1 : CalculateBalance (mkNode l (.mk hp (.mk hq ql qr qd) pr pd) d)
      = some ((GetHeight l : Int) - hp) :=
    CalculateBalance_mk _ l _ d (by rw [GetHeight_mk]; omega) (by rw [GetHeight_mk]; omega)
  have e2 : CalculateBalance (.mk hp (.mk hq ql qr qd) pr pd) = some ((hq : Int) - GetHeight pr) :=
    CalculateBalance_mk _ _ _ _ (by rw [GetHeight_mk]; omega) (by rw [GetHeight_mk]; omega)
  unfold Balance
  rw [CalculateHeight_mk h l _ d (by rw [SIZE_MOD]; omega) (by rw [GetHeight_mk, SIZE_MOD]; omega)]
  simp only [mkNode] at e1 ⊢
  simp only [e1, e2]
  rw [if_neg (by omega), if_pos (by omega), if_neg (by omega)]
  simp only [RotateRightLeft, RotateLeft, RotateRight, RotateOneSide]
  rw [CalculateHeight_mk _ qr pr pd (by rw [SIZE_MOD]; omega) (by rw [SIZE_MOD]; omega)]
  rw [CalculateHeight_mk _ ql _ qd (by rw [SIZE_MOD]; omega)
    (by rw [SIZE_MOD, GetHeight_mkNode]; omega)]
  simp only [mkNode]
  rw [CalculateHeight_mk _ l ql d (by rw [SIZE_MOD]; omega) (by rw [SIZE_MOD]; omega)]
  rw [CalculateHeight_mk _ _ _ qd (by rw [SIZE_MOD, GetHeight_mkNode]; omega)
    (by rw [SIZE_MOD, GetHeight_mk]; omega)]
  rfl

theorem HeightsExact_height_eq : ∀ t : node α, HeightsExact t → GetHeight t = height t := by
  intro t
  induction t with
  | NULL => intro _; rfl
  | mk h l r d ihl ihr =>
    rintro ⟨el, er, e⟩
    rw [GetHeight_mk, height, ← ihl el, ← ihr er, e]; omega

theorem AVL_of_exact_balanced : ∀ t : node α, HeightsExact t → Balanced t → AVL t := by
  intro t
  induction t with
  | NULL => intro _ _; trivial
  | mk h l r d ihl ihr =>
    rintro ⟨el, er, e⟩ ⟨bl, br, q1, q2⟩
    rw [← HeightsExact_height_eq l el, ← HeightsExact_height_eq r er] at q1 q2
    exact ⟨ihl el bl, ihr er br, by omega, q1, q2⟩

theorem mkNode_exact (l r : node α) (d : α) (el : HeightsExact l) (er : HeightsExact r) :
    HeightsExact (mkNode l r d) :=
  ⟨el, er, Nat.add_comm _ _⟩

theorem CalculateBalance_mkNode (l r : node α) (d : α) (ml : GetHeight l < 9223372036854775808)
    (mr : GetHeight r < 9223372036854775808) :
    CalculateBalance (mkNode l r d) = some ((GetHeight l : Int) - GetHeight r) :=
  CalculateBalance_mk _ l r d (by omega) (by omega)

/-- What `Balance` returns at its root for valid children of any height
difference: exact cached heights throughout and a root balance factor within
one of zero. -/
theorem Balance_root (h : Nat) (l r : node α) (d : α) (al : AVL l) (ar : AVL r)
    (ml : GetHeight l < 92) (mr : GetHeight r < 92) :
    ∃ t, Balance (.mk h l r d) = some t ∧ HeightsExact t ∧
      ∃ b, CalculateBalance t = some b ∧ -1 ≤ b ∧ b ≤ 1 := by
  have xl := AVL_HeightsExact l al
  have xr := AVL_HeightsExact r ar
  by_cases c1 : GetHeight l ≤ GetHeight r + 1
  · by_cases c2 : GetHeight r ≤ GetHeight l + 1
    · refine ⟨mkNode l r d, Balance_noop h l r d c1 c2 (by rw [SIZE_MOD]; omega)
        (by rw [SIZE_MOD]; omega), mkNode_exact l r d xl xr, _,
        CalculateBalance_mkNode l r d (by omega) (by omega), by omega, by omega⟩
    · cases r with
      | NULL => rw [show GetHeight (node.NULL : node α) = 0 from rfl] at c2; omega
      | mk hp pl pr pd =>
        rw [GetHeight_mk] at mr c1 c2
        obtain ⟨apl, apr, e, q1, q2⟩ := ar
        obtain ⟨xpl, xpr, _⟩ := xr
        by_cases c : GetHeight pl ≤ GetHeight pr
        · refine ⟨_, Balance_rightHeavy_single h hp l pl pr pd d (by omega) e c q2 (by omega),
            mkNode_exact _ _ _ (mkNode_exact _ _ _ xl xpl) xpr, _,
            CalculateBalance_mkNode _ _ _ (by rw [GetHeight_mkNode]; omega) (by omega), ?_, ?_⟩ <;>
            rw [GetHeight_mkNode] <;> omega
        · cases pl with
          | NULL => rw [show GetHeight (node.NULL : node α) = 0 from rfl] at c; omega
          | mk hq ql qr qd =>
            rw [GetHeight_mk] at e q1 q2 c
            obtain ⟨aql, aqr, eq, q3, q4⟩ := apl
            obtain ⟨xql, xqr, _⟩ := xpl
            refine ⟨_, Balance_rightHeavy_double h hp hq l ql qr pr pd qd d (by omega) e eq
              (by omega) (by omega) (by omega),
              mkNode_exact _ _ _ (mkNode_exact _ _ _ xl xql) (mkNode_exact _ _ _ xqr xpr), _,
              CalculateBalance_mkNode _ _ _ (by rw [GetHeight_mkNode]; omega)
                (by rw [GetHeight_mkNode]; omega), ?_, ?_⟩ <;>
              rw [GetHeight_mkNode, GetHeight_mkNode] <;> omega
  · cases l with
    | NULL => rw [show GetHeight (node.NULL : node α) = 0 from rfl] at c1; omega
    | mk hp pl pr pd =>
      rw [GetHeight_mk] at ml c1
      obtain ⟨apl, apr, e, q1, q2⟩ := al
      obtain ⟨xpl, xpr, _⟩ := xl
      by_cases c : GetHeight pr ≤ GetHeight pl
      · refine ⟨_, Balance_leftHeavy_single h hp pl pr r pd d (by omega) e c q1 (by omega),
          mkNode_exact _ _ _ xpl (mkNode_exact _ _ _ xpr xr), _,
          CalculateBalance_mkNode _ _ _ (by omega) (by rw [GetHeight_mkNode]; omega), ?_, ?_⟩ <;>
          rw [GetHeight_mkNode] <;> omega
      · cases pr with
        | NULL => rw [show GetHeight (node.NULL : node α) = 0 from rfl] at c; omega
        | mk hq ql qr qd =>
          rw [GetHeight_mk] at e q1 q2 c
          obtain ⟨aql, aqr, eq, q3, q4⟩ := apr
          obtain ⟨xql, xqr, _⟩ := xpr
          refine ⟨_, Balance_leftHeavy_double h hp hq pl ql qr r pd qd d (by omega) e eq
            (by omega) (by omega) (by omega),
            mkNode_exact _ _ _ (mkNode_exact _ _ _ xpl xql) (mkNode_exact _ _ _ xqr xr), _,
            CalculateBalance_mkNode _ _ _ (by rw [GetHeight_mkNode]; omega)
              (by rw [GetHeight_mkNode]; omega), ?_, ?_⟩ <;>
            rw [GetHeight_mkNode, GetHeight_mkNode] <;> omega

/-- With children three levels apart the root `Balance` returns is balanced but
a node below it is not: the right child of the result has a left subtree of
height 2 and no right subtree. -/
theorem Balance_root_only_example :
    ∃ t, Balance (node.mk 0
        (.mk 3 (.mk 2 (.mk 1 .NULL .NULL 1) (.mk 1 .NULL .NULL 3) 2)
          (.mk 2 (.mk 1 .NULL .NULL 5) (.mk 1 .NULL .NULL 7) 6) 4) .NULL (9 : Int)) = some t ∧
      ¬ Balanced t := by
  refine ⟨_, rfl, ?_⟩
  rintro ⟨_, ⟨_, _, hb, _⟩, _, _⟩
  exact absurd hb (by decide)

/-! ## The claims, continued -/

/-- C11, three-key shape: for payloads `a < b < c`, each of the six insertion
orders into an empty tree yields the tree with `b` at the root (cached height
2), `a` as its left child and `c` as its right child, both leaves. -/
theorem three_key_shape (cmp : α → α → Int) (sto : StrictTotalOrderCmp cmp) (a b c : α)
    (hab : cmp a b < 0) (hbc : cmp b c < 0) :
    insertAll (AVLTreeCreate cmp) [a, b, c] = some (threeKeyTree cmp a b c) ∧
    insertAll (AVLTreeCreate cmp) [a, c, b] = some (threeKeyTree cmp a b c) ∧
    insertAll (AVLTreeCreate cmp) [b, a, c] = some (threeKeyTree cmp a b c) ∧
    insertAll (AVLTreeCreate cmp) [b, c, a] = some (threeKeyTree cmp a b c) ∧
    insertAll (AVLTreeCreate cmp) [c, a, b] = some (threeKeyTree cmp a b c) ∧
    insertAll (AVLTreeCreate cmp) [c, b, a] = some (threeKeyTree cmp a b c) := by
  have hac : cmp a c < 0 := sto.lt_trans hab hbc
  have s1 := sto.symm a b
  have s2 := sto.symm b c
  have s3 := sto.symm a c
  have nab : ¬ cmp a b = 0 := by omega
  have nbc : ¬ cmp b c = 0 := by omega
  have nac : ¬ cmp a c = 0 := by omega
  have nba : ¬ cmp b a = 0 := by omega
  have ncb : ¬ cmp c b = 0 := by omega
  have nca : ¬ cmp c a = 0 := by omega
  have lba : ¬ cmp b a < 0 := by omega
  have lcb : ¬ cmp c b < 0 := by omega
  have lca : ¬ cmp c a < 0 := by omega
  refine ⟨?_, ?_, ?_, ?_, ?_, ?_⟩ <;>
    simp [insertAll, AVLTreeInsert, AVLTreeIsEmpty, AVLTreeCreate, InsertRecursive, CreateNode,
      GetData, Balance, CalculateHeight, CalculateBalance, GetHeight, Max, SIZE_MOD, toSsize,
      RotateLeft, RotateRight, RotateLeftRight, RotateRightLeft, RotateOneSide, threeKeyTree,
      hab, hbc, hac, nab, nbc, nac, nba, ncb, nca, lba, lcb, lca]

theorem three_key_shape_witness :
    intCmp 1 2 < 0 ∧ intCmp 2 3 < 0 ∧
    insertAll (AVLTreeCreate intCmp) [1, 2, 3] = some (threeKeyTree intCmp 1 2 3) ∧
    insertAll (AVLTreeCreate intCmp) [3, 1, 2] = some (threeKeyTree intCmp 1 2 3) :=
  ⟨by decide, by decide,
    (three_key_shape intCmp intCmp_sto 1 2 3 (by decide) (by decide)).1,
    (three_key_shape intCmp intCmp_sto 1 2 3 (by decide) (by decide)).2.2.2.2.1⟩

/-- C12, the contract of `Balance`: for a node whose two children are each
height-correct and AVL-balanced, whatever the difference of their heights,
`Balance` returns a node whose cached heights are correct (so its cached height
is its true height) and whose balance factor is -1, 0 or 1.  The node's subtree
is one a `size_t` can count. -/
theorem balance_contract (h : Nat) (l r : node α) (d : α)
    (el : HeightsExact l) (bl : Balanced l) (er : HeightsExact r) (br : Balanced r)
    (fits : size (.mk h l r d) < SIZE_MOD) :
    ∃ t, Balance (.mk h l r d) = some t ∧ HeightsExact t ∧ GetHeight t = height t ∧
      ∃ b, CalculateBalance t = some b ∧ -1 ≤ b ∧ b ≤ 1 := by
  have al := AVL_of_exact_balanced l el bl
  have ar := AVL_of_exact_balanced r er br
  simp only [size] at fits
  obtain ⟨t, e, x, b, cb, b1, b2⟩ := Balance_root h l r d al ar
    (AVL_height_small l al (by omega)) (AVL_height_small r ar (by omega))
  exact ⟨t, e, x, HeightsExact_height_eq t x, b, cb, b1, b2⟩

theorem balance_contract_witness :
    HeightsExact tree21435.root ∧ Balanced tree21435.root ∧
    HeightsExact (node.NULL : node Int) ∧ Balanced (node.NULL : node Int) ∧
    size (node.mk 0 tree21435.root .NULL (9 : Int)) < SIZE_MOD ∧
    ∃ t, Balance (node.mk 0 tree21435.root .NULL (9 : Int)) = some t ∧ HeightsExact t ∧
      GetHeight t = height t ∧ ∃ b, CalculateBalance t = some b ∧ -1 ≤ b ∧ b ≤ 1 :=
  ⟨AVL_HeightsExact _ (Reachable_Inv intCmp intCmp_sto tree21435 reachable_tree21435).2.1,
    AVL_Balanced _ (Reachable_Inv intCmp intCmp_sto tree21435 reachable_tree21435).2.1,
    trivial, trivial, by decide,
    balance_contract 0 tree21435.root .NULL 9
      (AVL_HeightsExact _ (Reachable_Inv intCmp intCmp_sto tree21435 reachable_tree21435).2.1)
      (AVL_Balanced _ (Reachable_Inv intCmp intCmp_sto tree21435 reachable_tree21435).2.1)
      trivial trivial (by decide)⟩

/-- C13, `Balance` under the precondition met in reachable trees: for a node
whose children are valid AVL subtrees with exact cached heights at most two
apart, `Balance` returns a subtree that is a valid AVL tree with exact cached
heights at every node, has the same in-order payload sequence as the input and
has height `max hl hr + 1` or `max hl hr`.  The node's subtree is one a `size_t`
can count. -/
theorem balance_reachable_precondition (h : Nat) (l r : node α) (d : α)
    (el : HeightsExact l) (bl : Balanced l) (er : HeightsExact r) (br : Balanced r)
    (b1 : height l ≤ height r + 2) (b2 : height r ≤ height l + 2)
    (fits : size (.mk h l r d) < SIZE_MOD) :
    ∃ t, Balance (.mk h l r d) = some t ∧ (Balanced t ∧ HeightsExact t) ∧
      inorder t = inorder (.mk h l r d) ∧
      (height t = max (height l) (height r) + 1 ∨ height t = max (height l) (height r)) := by
  have al := AVL_of_exact_balanced l el bl
  have ar := AVL_of_exact_balanced r er br
  have hl := AVL_height_eq l al
  have hr := AVL_height_eq r ar
  have sl := height_le_size l
  have sr := height_le_size r
  simp only [size] at fits
  obtain ⟨t, e, a, i, _, ht, _⟩ := Balance_ok h l r d al ar (by omega) (by omega)
    (by omega) (by omega)
  refine ⟨t, e, ⟨AVL_Balanced t a, AVL_HeightsExact t a⟩, i, ?_⟩
  rw [← AVL_height_eq t a, ← hl, ← hr]
  exact ht

theorem balance_reachable_precondition_witness :
    ∃ t, Balance (node.mk 3 .NULL (.mk 2 (.mk 1 .NULL .NULL 3) (.mk 1 .NULL .NULL 5) 4) (1 : Int))
        = some t ∧ (Balanced t ∧ HeightsExact t) ∧
      inorder t = [1, 3, 4, 5] ∧ (height t = 2 + 1 ∨ height t = 2) :=
  balance_reachable_precondition 3 .NULL (.mk 2 (.mk 1 .NULL .NULL 3) (.mk 1 .NULL .NULL 5) 4)
    (1 : Int) trivial trivial ⟨⟨trivial, trivial, rfl⟩, ⟨trivial, trivial, rfl⟩, rfl⟩
    ⟨⟨trivial, trivial, by decide, by decide⟩, ⟨trivial, trivial, by decide, by decide⟩,
      by decide, by decide⟩
    (by decide) (by decide) (by decide)

theorem HeightCurrent_exact (h : Nat) (l r : node α) (d : α) (c : HeightCurrent (.mk h l r d))
    (ml : GetHeight l + 1 < SIZE_MOD) (mr : GetHeight r + 1 < SIZE_MOD) :
    h = 1 + max (GetHeight l) (GetHeight r) := by
  have c' : h = (Max (GetHeight l) (GetHeight r) + 1) % SIZE_MOD := c
  rw [Max_eq_max] at c'
  unfold SIZE_MOD at ml mr c'
  omega

/-- C14, rotations preserve order: each rotation, applied to a node that has the
child (and grandchild) it needs, returns a subtree with the same in-order
payload sequence, in which the rotated nodes (two for a single, three for a
double rotation) carry the cached height `CalculateHeight` gives them from
their new children: `Max + 1` as a `size_t`, which is `1 + max` of the
children's cached heights unless a sum passes `SIZE_MAX`. -/
theorem rotations_preserve_order :
    (∀ (hg hp : Nat) (gl pl pr : node α) (gd pd : α), ∃ hg' hp',
      RotateLeft (.mk hg gl (.mk hp pl pr pd) gd) = some (.mk hp' (.mk hg' gl pl gd) pr pd) ∧
      inorder (.mk hp' (.mk hg' gl pl gd) pr pd) = inorder (.mk hg gl (.mk hp pl pr pd) gd) ∧
      HeightCurrent (.mk hg' gl pl gd) ∧ HeightCurrent (.mk hp' (.mk hg' gl pl gd) pr pd) ∧
      (GetHeight gl + 2 < SIZE_MOD → GetHeight pl + 2 < SIZE_MOD → GetHeight pr + 2 < SIZE_MOD →
        hg' = 1 + max (GetHeight gl) (GetHeight pl) ∧ hp' = 1 + max hg' (GetHeight pr))) ∧
    (∀ (hg hp : Nat) (pl pr gr : node α) (gd pd : α), ∃ hg' hp',
      RotateRight (.mk hg (.mk hp pl pr pd) gr gd) = some (.mk hp' pl (.mk hg' pr gr gd) pd) ∧
      inorder (.mk hp' pl (.mk hg' pr gr gd) pd) = inorder (.mk hg (.mk hp pl pr pd) gr gd) ∧
      HeightCurrent (.mk hg' pr gr gd) ∧ HeightCurrent (.mk hp' pl (.mk hg' pr gr gd) pd) ∧
      (GetHeight pl + 2 < SIZE_MOD → GetHeight pr + 2 < SIZE_MOD → GetHeight gr + 2 < SIZE_MOD →
        hg' = 1 + max (GetHeight pr) (GetHeight gr) ∧ hp' = 1 + max (GetHeight pl) hg')) ∧
    (∀ (hg hp hq : Nat) (pl ql qr gr : node α) (gd pd qd : α), ∃ hg' hp' hq',
      RotateLeftRight (.mk hg (.mk hp pl (.mk hq ql qr qd) pd) gr gd)
        = some (.mk hq' (.mk hp' pl ql pd) (.mk hg' qr gr gd) qd) ∧
      inorder (.mk hq' (.mk hp' pl ql pd) (.mk hg' qr gr gd) qd)
        = inorder (.mk hg (.mk hp pl (.mk hq ql qr qd) pd) gr gd) ∧
      HeightCurrent (.mk hp' pl ql pd) ∧ HeightCurrent (.mk hg' qr gr gd) ∧
      HeightCurrent (.mk hq' (.mk hp' pl ql pd) (.mk hg' qr gr gd) qd) ∧
      (GetHeight pl + 2 < SIZE_MOD → GetHeight ql + 2 < SIZE_MOD → GetHeight qr + 2 < SIZE_MOD →
        GetHeight gr + 2 < SIZE_MOD →
        hp' = 1 + max (GetHeight pl) (GetHeight ql) ∧ hg' = 1 + max (GetHeight qr) (GetHeight gr) ∧
        hq' = 1 + max hp' hg')) ∧
    (∀ (hg hp hq : Nat) (gl ql qr pr : node α) (gd pd qd : α), ∃ hg' hp' hq',
      RotateRightLeft (.mk hg gl (.mk hp (.mk hq ql qr qd) pr pd) gd)
        = some (.mk hq' (.mk hg' gl ql gd) (.mk hp' qr pr pd) qd) ∧
      inorder (.mk hq' (.mk hg' gl ql gd) (.mk hp' qr pr pd) qd)
        = inorder (.mk hg gl (.mk hp (.mk hq ql qr qd) pr pd) gd) ∧
      HeightCurrent (.mk hg' gl ql gd) ∧ HeightCurrent (.mk hp' qr pr pd) ∧
      HeightCurrent (.mk hq' (.mk hg' gl ql gd) (.mk hp' qr pr pd) qd) ∧
      (GetHeight gl + 2 < SIZE_MOD → GetHeight ql + 2 < SIZE_MOD → GetHeight qr + 2 < SIZE_MOD →
        GetHeight pr + 2 < SIZE_MOD →
        hg' = 1 + max (GetHeight gl) (GetHeight ql) ∧ hp' = 1 + max (GetHeight qr) (GetHeight pr) ∧
        hq' = 1 + max hg' hp')) := by
  refine ⟨?_, ?_, ?_, ?_⟩
  · intro hg hp gl pl pr gd pd
    refine ⟨_, _, rfl, by simp [inorder], rfl, rfl, ?_⟩
    intro m1 m2 m3
    have e1 := HeightCurrent_exact _ gl pl gd rfl (by omega) (by omega)
    refine ⟨e1, HeightCurrent_exact _ _ pr pd rfl ?_ (by omega)⟩
    show (Max _ _ + 1) % SIZE_MOD + 1 < SIZE_MOD; rw [e1]; omega
  · intro hg hp pl pr gr gd pd
    refine ⟨_, _, rfl, by simp [inorder], rfl, rfl, ?_⟩
    intro m1 m2 m3
    have e1 := HeightCurrent_exact _ pr gr gd rfl (by omega) (by omega)
    refine ⟨e1, HeightCurrent_exact _ pl _ pd rfl (by omega) ?_⟩
    show (Max _ _ + 1) % SIZE_MOD + 1 < SIZE_MOD; rw [e1]; omega
  · intro hg hp hq pl ql qr gr gd pd qd
    refine ⟨_, _, _, rfl, by simp [inorder], rfl, rfl, rfl, ?_⟩
    intro m1 m2 m3 m4
    have e1 := HeightCurrent_exact _ pl ql pd rfl (by omega) (by omega)
    have e2 := HeightCurrent_exact _ qr gr gd rfl (by omega) (by omega)
    refine ⟨e1, e2, HeightCurrent_exact _ _ _ qd rfl ?_ ?_⟩
    · show (Max _ _ + 1) % SIZE_MOD + 1 < SIZE_MOD; rw [e1]; omega
    · show (Max _ _ + 1) % SIZE_MOD + 1 < SIZE_MOD; rw [e2]; omega
  · intro hg hp hq gl ql qr pr gd pd qd
    refine ⟨_, _, _, rfl, by simp [inorder], rfl, rfl, rfl, ?_⟩
    intro m1 m2 m3 m4
    have e1 := HeightCurrent_exact _ gl ql gd rfl (by omega) (by omega)
    have e2 := HeightCurrent_exact _ qr pr pd rfl (by omega) (by omega)
    refine ⟨e1, e2, HeightCurrent_exact _ _ _ qd rfl ?_ ?_⟩
    · show (Max _ _ + 1) % SIZE_MOD + 1 < SIZE_MOD; rw [e1]; omega
    · show (Max _ _ + 1) % SIZE_MOD + 1 < SIZE_MOD; rw [e2]; omega

theorem rotations_preserve_order_witness :
    (∃ hg' hp', RotateLeft (node.mk 3 .NULL (.mk 2 .NULL (.mk 1 .NULL .NULL 3) 2) (1 : Int))
        = some (.mk hp' (.mk hg' .NULL .NULL 1) (.mk 1 .NULL .NULL 3) 2) ∧
      hg' = 1 + max 0 0 ∧ hp' = 1 + max hg' 1) ∧
    (∃ hg' hp' hq', RotateLeftRight (node.mk 3 (.mk 2 .NULL (.mk 1 .NULL .NULL 2) 1) .NULL (3 : Int))
        = some (.mk hq' (.mk hp' .NULL .NULL 1) (.mk hg' .NULL .NULL 3) 2) ∧
      hp' = 1 + max 0 0 ∧ hg' = 1 + max 0 0 ∧ hq' = 1 + max hp' hg') := by
  constructor
  · obtain ⟨hg', hp', e, _, _, _, ex⟩ :=
      (@rotations_preserve_order Int).1 3 2 .NULL .NULL (.mk 1 .NULL .NULL 3) 1 2
    exact ⟨hg', hp', e, ex (by decide) (by decide) (by decide)⟩
  · obtain ⟨hg', hp', hq', e, _, _, _, _, ex⟩ :=
      (@rotations_preserve_order Int).2.2.1 3 2 1 .NULL .NULL .NULL .NULL 3 1 2
    exact ⟨hg', hp', hq', e, ex (by decide) (by decide) (by decide) (by decide)⟩

theorem RotateRight_height_irrelevant (h h' : Nat) (l r : node α) (d : α) :
    RotateRight (.mk h l r d) = RotateRight (.mk h' l r d) := by
  cases l <;> rfl

theorem RotateLeft_height_irrelevant (h h' : Nat) (l r : node α) (d : α) :
    RotateLeft (.mk h l r d) = RotateLeft (.mk h' l r d) := by
  cases r <;> rfl

/-- C15, tie-break in `Balance`: a node with balance factor +2 whose left child
has balance factor 0 gets the single right rotation, so the left child becomes
the subtree root, and not the left-right double rotation; symmetrically a node
with balance factor -2 whose right child has balance factor 0 gets the single
left rotation and not the right-left double rotation. -/
theorem balance_tie_break (h : Nat) (l r : node α) (d : α) :
    (CalculateBalance (.mk h l r d) = some 2 → CalculateBalance l = some 0 →
      Balance (.mk h l r d) = RotateRight (.mk h l r d) ∧
      (∃ t, Balance (.mk h l r d) = some t ∧ GetData t = GetData l) ∧
      Balance (.mk h l r d) ≠ RotateLeftRight (.mk h l r d)) ∧
    (CalculateBalance (.mk h l r d) = some (-2) → CalculateBalance r = some 0 →
      Balance (.mk h l r d) = RotateLeft (.mk h l r d) ∧
      (∃ t, Balance (.mk h l r d) = some t ∧ GetData t = GetData r) ∧
      Balance (.mk h l r d) ≠ RotateRightLeft (.mk h l r d)) := by
  constructor
  · intro c2 c0
    have cb : ∀ h', CalculateBalance (.mk h' l r d) = some 2 := fun _ => c2
    have e : Balance (.mk h l r d) = RotateRight (.mk h l r d) := by
      unfold Balance
      simp only [CalculateHeight, cb, c0]
      rw [if_pos (by decide), if_pos (by decide)]
      exact RotateRight_height_irrelevant _ _ l r d
    cases l with
    | NULL => simp [CalculateBalance] at c0
    | mk hp pl pr pd =>
      refine ⟨e, ⟨_, e.trans rfl, rfl⟩, ?_⟩
      rw [e]
      cases pr with
      | NULL => simp [RotateRight, RotateLeftRight, RotateLeft, RotateOneSide]
      | mk hq ql qr qd =>
        intro hc
        simp only [RotateRight, RotateLeftRight, RotateLeft, RotateOneSide, CalculateHeight,
          Option.some.injEq, node.mk.injEq] at hc
        have := congrArg size hc.2.1
        simp only [size] at this
        omega
  · intro c2 c0
    have cb : ∀ h', CalculateBalance (.mk h' l r d) = some (-2) := fun _ => c2
    have e : Balance (.mk h l r d) = RotateLeft (.mk h l r d) := by
      unfold Balance
      simp only [CalculateHeight, cb, c0]
      rw [if_neg (by decide), if_pos (by decide), if_pos (by decide)]
      exact RotateLeft_height_irrelevant _ _ l r d
    cases r with
    | NULL => simp [CalculateBalance] at c0
    | mk hp pl pr pd =>
      refine ⟨e, ⟨_, e.trans rfl, rfl⟩, ?_⟩
      rw [e]
      cases pl with
      | NULL => simp [RotateLeft, RotateRightLeft, RotateRight, RotateOneSide]
      | mk hq ql qr qd =>
        intro hc
        simp only [RotateLeft, RotateRightLeft, RotateRight, RotateOneSide, CalculateHeight,
          Option.some.injEq, node.mk.injEq] at hc
        have := congrArg size hc.2.2.1
        simp only [size] at this
        omega

theorem balance_tie_break_witness :
    CalculateBalance (node.mk 3 .NULL (.mk 2 (.mk 1 .NULL .NULL 3) (.mk 1 .NULL .NULL 5) 4) (1 : Int))
      = some (-2) ∧
    CalculateBalance (node.mk 2 (.mk 1 .NULL .NULL 3) (.mk 1 .NULL .NULL 5) (4 : Int)) = some 0 ∧
    (Balance (node.mk 3 .NULL (.mk 2 (.mk 1 .NULL .NULL 3) (.mk 1 .NULL .NULL 5) 4) (1 : Int))
      = RotateLeft (node.mk 3 .NULL (.mk 2 (.mk 1 .NULL .NULL 3) (.mk 1 .NULL .NULL 5) 4) 1)) ∧
    RotateLeft (node.mk 3 .NULL (.mk 2 (.mk 1 .NULL .NULL 3) (.mk 1 .NULL .NULL 5) 4) (1 : Int))
      = some tree21435_less2.root ∧
    AVLTreeRemove tree21435 2 = some tree21435_less2 :=
  ⟨by decide, by decide,
    ((balance_tie_break 3 .NULL (.mk 2 (.mk 1 .NULL .NULL 3) (.mk 1 .NULL .NULL 5) 4)
      (1 : Int)).2 (by decide) (by decide)).1,
    rfl, rfl⟩

/-! ## Two-child removal -/

theorem DiveAndRemoveRecursive_rightmost :
    ∀ (t t' : node α) (m : α), DiveAndRemoveRecursive t .RIGHT = some (t', m) →
      rightmost t = some m := by
  intro t
  induction t with
  | NULL => intro t' m e; simp [DiveAndRemoveRecursive] at e
  | mk h l r d _ ihr =>
    intro t' m e
    cases r with
    | NULL =>
      cases l <;> simp [DiveAndRemoveRecursive, RemoveWithOneChild] at e <;>
        simp [rightmost, e.2]
    | mk hc cl cr cd =>
      simp only [DiveAndRemoveRecursive] at e
      cases e1 : DiveAndRemoveRecursive (.mk hc cl cr cd) .RIGHT with
      | none => simp [e1] at e
      | some p =>
        obtain ⟨c', nd⟩ := p
        simp only [e1] at e
        cases e2 : Balance (.mk h l c' d) with
        | none => simp [e2] at e
        | some b =>
          simp only [e2, Option.some.injEq, Prod.mk.injEq] at e
          rw [rightmost, ihr c' nd e1, e.2]

theorem reachable_tree213 : Reachable intCmp tree213 := by
  obtain ⟨t', e, r, _⟩ := insertAll_ok intCmp intCmp_sto [2, 1, 3] (AVLTreeCreate intCmp)
    Reachable.create (by decide) (by decide) (by decide)
  have e' : insertAll (AVLTreeCreate intCmp) [2, 1, 3] = some tree213 := rfl
  rw [e'] at e
  cases e
  exact r

/-- C16, two-child removal promotes the in-order predecessor: for a node `n`
with two children in a valid ordered tree, the dive into the left subtree hands
back the payload `m` of that subtree's rightmost node, which is larger than
every other payload there and smaller than the payload of `n`, and returns the
left subtree without exactly that node; `n` goes on to `Balance` with payload
`m`, the returned left subtree and its right subtree as it was. -/
theorem two_child_removal_predecessor (cmp : α → α → Int)
    (h : Nat) (l r : node α) (d : α) (hl : l ≠ .NULL) (_hr : r ≠ .NULL)
    (e : HeightsExact (.mk h l r d)) (b : Balanced (.mk h l r d))
    (o : Ordered cmp (.mk h l r d)) (fits : size (.mk h l r d) < SIZE_MOD) :
    ∃ l' m, DiveAndRemoveRecursive l .RIGHT = some (l', m) ∧ rightmost l = some m ∧
      inorder l = inorder l' ++ [m] ∧ size l' + 1 = size l ∧
      (∀ y ∈ inorder l', cmp y m < 0) ∧ cmp m d < 0 ∧
      RemoveWithTwoChildren (.mk h l r d) = Balance (.mk h l' r m) := by
  have a := AVL_of_exact_balanced _ e b
  have hs := height_le_size l
  obtain ⟨al, _, _, _, _⟩ := a
  rw [← AVL_height_eq l al] at hs
  simp only [size] at fits
  obtain ⟨l', m, el, _, _, sl', il'⟩ := DiveAndRemoveRecursive_ok l hl al (by omega)
  obtain ⟨ol, _, ld, _, _⟩ := (Ordered_mk cmp h l r d).1 o
  have ol' : (inorder l' ++ [m]).Pairwise (fun a b => cmp a b < 0) := by
    rw [← il']; exact ol
  refine ⟨l', m, el, DiveAndRemoveRecursive_rightmost l l' m el, il', sl', ?_, ?_, ?_⟩
  · intro y hy
    exact (List.pairwise_append.1 ol').2.2 y hy m (List.mem_singleton_self m)
  · exact ld m (by rw [il']; simp)
  · simp only [RemoveWithTwoChildren, el]

theorem two_child_removal_predecessor_witness :
    (∃ l' m, DiveAndRemoveRecursive (node.mk 1 .NULL .NULL (1 : Int)) .RIGHT = some (l', m) ∧
      rightmost (node.mk 1 .NULL .NULL (1 : Int)) = some m ∧
      inorder (node.mk 1 .NULL .NULL (1 : Int)) = inorder l' ++ [m] ∧
      size l' + 1 = size (node.mk 1 .NULL .NULL (1 : Int)) ∧
      (∀ y ∈ inorder l', intCmp y m < 0) ∧ intCmp m 2 < 0 ∧
      RemoveWithTwoChildren tree213.root = Balance (.mk 2 l' (.mk 1 .NULL .NULL 3) m)) ∧
    AVLTreeRemove tree213 2 = some tree213_less2 :=
  ⟨two_child_removal_predecessor intCmp 2 (.mk 1 .NULL .NULL 1) (.mk 1 .NULL .NULL 3) 2
      (by decide) (by decide)
      (AVL_HeightsExact _ (Reachable_Inv intCmp intCmp_sto tree213 reachable_tree213).2.1)
      (AVL_Balanced _ (Reachable_Inv intCmp intCmp_sto tree213 reachable_tree213).2.1)
      (Reachable_Inv intCmp intCmp_sto tree213 reachable_tree213).2.2.1 (by decide),
    rfl⟩

theorem InsertRecursive_none_of_assert (cmp : α → α → Int) (x : α) :
    ∀ t : node α, InsertAssertionFails cmp t x = true →
      InsertRecursive cmp t (CreateNode x) = none := by
  intro t
  induction t with
  | NULL => intro hf; simp [InsertAssertionFails] at hf
  | mk h l r d ihl ihr =>
    intro hf
    simp only [InsertAssertionFails] at hf
    simp only [InsertRecursive, CreateNode, GetData]
    by_cases c0 : cmp d x = 0
    · rw [if_pos c0]
    · rw [if_neg c0] at hf ⊢
      by_cases c : cmp d x < 0
      · rw [if_pos c] at hf ⊢
        have := ihr hf
        simp only [CreateNode] at this
        rw [this]
      · rw [if_neg c] at hf ⊢
        have := ihl hf
        simp only [CreateNode] at this
        rw [this]

theorem InsertAssertionFails_iff (cmp : α → α → Int) (sto : StrictTotalOrderCmp cmp) (x : α) :
    ∀ t : node α, Ordered cmp t →
      (InsertAssertionFails cmp t x = true ↔ ∃ y ∈ inorder t, cmp y x = 0) := by
  intro t
  induction t with
  | NULL => intro _; simp [InsertAssertionFails, inorder]
  | mk h l r d ihl ihr =>
    intro o
    obtain ⟨ol, or', ld, dr, _⟩ := (Ordered_mk cmp h l r d).1 o
    simp only [InsertAssertionFails]
    by_cases c0 : cmp d x = 0
    · rw [if_pos c0]
      exact ⟨fun _ => ⟨d, by simp [inorder], c0⟩, fun _ => rfl⟩
    · rw [if_neg c0]
      by_cases c : cmp d x < 0
      · rw [if_pos c, ihr or']
        constructor
        · rintro ⟨y, hy, e⟩
          exact ⟨y, by simp [inorder, hy], e⟩
        · rintro ⟨y, hy, e⟩
          simp only [inorder, List.mem_append, List.mem_cons] at hy
          rcases hy with hy | rfl | hy
          · have := sto.lt_trans (ld y hy) c; omega
          · exact absurd e c0
          · exact ⟨y, hy, e⟩
      · rw [if_neg c, ihl ol]
        constructor
        · rintro ⟨y, hy, e⟩
          exact ⟨y, by simp [inorder, hy], e⟩
        · rintro ⟨y, hy, e⟩
          simp only [inorder, List.mem_append, List.mem_cons] at hy
          rcases hy with hy | rfl | hy
          · exact ⟨y, hy, e⟩
          · exact absurd e c0
          · have := sto.lt_of_lt_of_eq (dr y hy) e; omega

/-- C18, duplicate insertion is caught by the assertion: on a reachable tree,
the descent of `InsertRecursive` for `x` meets a failing `assert(cmp_result !=
0)` if and only if some stored element compares equal to `x`; in that case
`AVLTreeInsert` does not return, and when no stored element compares equal to
`x` (the empty tree included) it returns a tree, no assertion failing. -/
theorem duplicate_insert_asserts (cmp : α → α → Int) (sto : StrictTotalOrderCmp cmp)
    (t : avl_tree α) (h : Reachable cmp t) (x : α) :
    (InsertAssertionFails t.cmp_func t.root x = true ↔ ∃ y ∈ stored t, cmp y x = 0) ∧
    ((∃ y ∈ stored t, cmp y x = 0) → AVLTreeInsert t x = none) ∧
    ((∀ y ∈ stored t, cmp y x ≠ 0) → size t.root + 1 < SIZE_MOD →
      InsertAssertionFails t.cmp_func t.root x = false ∧ ∃ t', AVLTreeInsert t x = some t') := by
  have hi := Reachable_Inv cmp sto t h
  obtain ⟨ce, _, o, _⟩ := Reachable_Inv cmp sto t h
  have key := InsertAssertionFails_iff cmp sto x t.root o
  rw [ce]
  refine ⟨key, ?_, ?_⟩
  · intro dup
    rw [AVLTreeInsert_eq, ce, InsertRecursive_none_of_assert cmp x t.root (key.2 dup)]
    rfl
  · intro fresh room
    obtain ⟨t', e, _⟩ := AVLTreeInsert_ok cmp sto t x hi fresh room
    refine ⟨?_, t', e⟩
    cases hf : InsertAssertionFails cmp t.root x with
    | false => rfl
    | true =>
      obtain ⟨y, hy, e0⟩ := key.1 hf
      exact absurd e0 (fresh y hy)

theorem duplicate_insert_asserts_witness :
    (InsertAssertionFails tree213.cmp_func tree213.root 2 = true ↔
      ∃ y ∈ stored tree213, intCmp y 2 = 0) ∧
    AVLTreeInsert tree213 2 = none ∧
    (InsertAssertionFails tree213.cmp_func tree213.root 5 = false ∧
      ∃ t', AVLTreeInsert tree213 5 = some t') :=
  ⟨(duplicate_insert_asserts intCmp intCmp_sto tree213 reachable_tree213 2).1,
    (duplicate_insert_asserts intCmp intCmp_sto tree213 reachable_tree213 2).2.1
      ⟨2, by decide, by decide⟩,
    (duplicate_insert_asserts intCmp intCmp_sto tree213 reachable_tree213 5).2.2
      (by decide) (by decide)⟩

/-- C19, insert does not disturb other elements: on a reachable tree with room
for one more node, inserting a payload `x` unequal to every stored element
returns a tree on which `AVLTreeFind` of every previously stored element gives
what it gave before, that element itself, and whose in-order payload sequence
is the old one with `x` put in at its sorted position. -/
theorem insert_frame (cmp : α → α → Int) (sto : StrictTotalOrderCmp cmp)
    (t : avl_tree α) (h : Reachable cmp t) (x : α) (fresh : ∀ y ∈ stored t, cmp y x ≠ 0)
    (room : size t.root + 1 < SIZE_MOD) :
    ∃ t', AVLTreeInsert t x = some t' ∧
      (∀ y ∈ stored t, AVLTreeFind t' y = AVLTreeFind t y ∧ AVLTreeFind t y = some y) ∧
      ∃ pre post, stored t = pre ++ post ∧ stored t' = pre ++ x :: post ∧
        (∀ y ∈ pre, cmp y x < 0) ∧ (∀ y ∈ post, cmp x y < 0) := by
  have hi := Reachable_Inv cmp sto t h
  obtain ⟨ce, _, o, _⟩ := Reachable_Inv cmp sto t h
  obtain ⟨t', e, ⟨ce', _, o', _⟩, _, pre, post, i1, i2, p1, p2⟩ :=
    AVLTreeInsert_ok cmp sto t x hi fresh room
  refine ⟨t', e, ?_, pre, post, i1, i2, p1, p2⟩
  intro y hy
  have f1 : AVLTreeFind t y = some y := by
    unfold AVLTreeFind
    rw [ce]
    exact FindRecursive_complete cmp sto y t.root o y hy (sto.refl y)
  have hy' : y ∈ stored t' := by
    rw [i2]; rw [i1] at hy
    simp only [List.mem_append, List.mem_cons] at hy ⊢
    rcases hy with hy | hy
    · exact Or.inl hy
    · exact Or.inr (Or.inr hy)
  have f2 : AVLTreeFind t' y = some y := by
    unfold AVLTreeFind
    rw [ce']
    exact FindRecursive_complete cmp sto y t'.root o' y hy' (sto.refl y)
  exact ⟨f2.trans f1.symm, f1⟩

theorem insert_frame_witness :
    ∃ t', AVLTreeInsert tree21435_less2 2 = some t' ∧
      (∀ y ∈ stored tree21435_less2,
        AVLTreeFind t' y = AVLTreeFind tree21435_less2 y ∧
        AVLTreeFind tree21435_less2 y = some y) ∧
      ∃ pre post, stored tree21435_less2 = pre ++ post ∧ stored t' = pre ++ 2 :: post ∧
        (∀ y ∈ pre, intCmp y 2 < 0) ∧ (∀ y ∈ post, intCmp 2 y < 0) :=
  insert_frame intCmp intCmp_sto tree21435_less2 reachable_tree21435_less2 2 (by decide)
    (by decide)

/-- C20, `CalculateBalance` is the signed difference: for a node whose children
have cached heights `hl` and `hr` below `2 ^ 63`, the `size_t` subtraction
`GetHeight(left) - GetHeight(right)` read as `ssize_t` is the integer `hl - hr`;
when `hl < hr` the `size_t` difference itself is the wrapped value
`hl - hr + 2 ^ 64`. -/
theorem calculate_balance_signed (h : Nat) (l r : node α) (d : α)
    (ml : GetHeight l < 9223372036854775808) (mr : GetHeight r < 9223372036854775808) :
    CalculateBalance (.mk h l r d) = some ((GetHeight l : Int) - (GetHeight r : Int)) ∧
    (GetHeight l < GetHeight r →
      ((GetHeight l : Int) - (GetHeight r : Int)) % 18446744073709551616
        = (GetHeight l : Int) - (GetHeight r : Int) + 18446744073709551616 ∧
      toSsize ((GetHeight l : Int) - (GetHeight r : Int) + 18446744073709551616)
        = (GetHeight l : Int) - (GetHeight r : Int)) := by
  refine ⟨CalculateBalance_mk h l r d (by omega) (by omega), ?_⟩
  intro lt
  refine ⟨by omega, ?_⟩
  unfold toSsize
  split <;> omega

theorem calculate_balance_signed_witness :
    GetHeight (node.NULL : node Int) < 9223372036854775808 ∧
    GetHeight (node.mk 1 .NULL .NULL (3 : Int)) < 9223372036854775808 ∧
    CalculateBalance (node.mk 2 .NULL (.mk 1 .NULL .NULL 3) (1 : Int)) = some (-1) :=
  ⟨by decide, by decide,
    (calculate_balance_signed 2 .NULL (.mk 1 .NULL .NULL 3) (1 : Int) (by decide) (by decide)).1⟩

end AvlTree
